import Mathlib

/-!
# Vehicle firmware: motor drive, serial command link, ultrasonic ranging

A shallow embedding of `motor.c`, `smartcar.c`, `Serial.c`, `ultrasonic.c` and
`sw_uart.c`.

* Peripheral registers and the C globals are fields of one `State` record.
* `uint8_t` / `uint32_t` values are natural numbers, reduced `% 2^w` where the
  C code can wrap; `int8_t` / `int` arguments are integers.
* `double` and `float` values are the rationals they denote; every arithmetic
  operation is the exact operation followed by IEEE 754 round-to-nearest-even
  (`f64` for binary64, `f32` for binary32).
* A conversion from `double` to `uint32_t` whose truncated value does not fit
  is undefined behaviour in C; functions that perform one return `Option`.
  Variants named `_exec` take the value a target produces there as a parameter.
* Time is a model clock in microseconds that only busy-waits advance; the time
  taken by other instructions is not counted.
-/

namespace Firmware

/-! ## IEEE 754 rounding -/

/-- Auxiliary for `natLog2`: `fuel` bounds the number of halvings. -/
def log2Fuel : Nat → Nat → Nat
  | 0, _ => 0
  | fuel + 1, n => if n < 2 then 0 else log2Fuel fuel (n / 2) + 1

/-- Position of the leading one bit of `n` (0 for `n = 0`). -/
def natLog2 (n : Nat) : Nat := log2Fuel n n

/-- The rational `2 ^ k` for an integer exponent. -/
def pow2 (k : Int) : ℚ :=
  if 0 ≤ k then ((2 ^ k.toNat : Nat) : ℚ) else 1 / ((2 ^ (-k).toNat : Nat) : ℚ)

/-- For `q > 0`, the integer `e` with `2 ^ e ≤ q < 2 ^ (e + 1)`. -/
def floorLog2 (q : ℚ) : Int :=
  let t : Int := (natLog2 q.num.natAbs : Int) - (natLog2 q.den : Int)
  if pow2 t ≤ q then t else t - 1

/-- Nearest integer, ties to the even one. -/
def roundNearestEven (q : ℚ) : Int :=
  let f := Rat.floor q
  let r := q - f
  if r < 1 / 2 then f
  else if 1 / 2 < r then f + 1
  else if f % 2 = 0 then f else f + 1

/-- Exponent of the unit in the last place of a non-zero `q` in the format with
`prec` significand bits and least normal exponent `emin`. -/
def ulpExp (prec : Nat) (emin : Int) (q : ℚ) : Int :=
  max (floorLog2 |q|) emin - ((prec : Int) - 1)

/-- Round-to-nearest-even into the binary floating-point format with `prec`
significand bits and least normal exponent `emin` (gradual underflow below it).
Overflow to infinity is not represented: every value this firmware computes is
below `2 ^ 44` in magnitude. -/
def roundFloat (prec : Nat) (emin : Int) (q : ℚ) : ℚ :=
  if q = 0 then 0
  else (roundNearestEven (q / pow2 (ulpExp prec emin q)) : ℚ) * pow2 (ulpExp prec emin q)

/-- Rounding to C `double` (binary64). -/
def f64 (q : ℚ) : ℚ := roundFloat 53 (-1022) q

/-- Rounding to C `float` (binary32). -/
def f32 (q : ℚ) : ℚ := roundFloat 24 (-126) q

/-- Truncation toward zero. -/
def truncQ (q : ℚ) : Int := if 0 ≤ q then Rat.floor q else -Rat.floor (-q)

/-- Conversion of a `double` to `uint32_t`: the value truncated toward zero when
that fits in 32 bits, undefined otherwise. -/
def toUInt32 (q : ℚ) : Option Nat :=
  let t := truncQ q
  if 0 ≤ t ∧ t < 2 ^ 32 then some t.toNat else none

/-! ## Machine state -/

/-- Peripheral registers and global variables of the firmware. -/
structure State where
  /-- `uint32_t comparevalue` of `motor.c`. -/
  comparevalue : Nat
  /-- Capture/compare register 0 of `PWM_0_INST` (left motor). -/
  PWM_0_CC0 : Nat
  /-- Capture/compare register 0 of `PWM_1_INST` (right motor). -/
  PWM_1_CC0 : Nat
  /-- Output `GPIO_motor_PIN_STBY_PIN`. -/
  STBY : Bool
  /-- Output `GPIO_motor_PIN_L_0_PIN` (left reverse). -/
  L_0 : Bool
  /-- Output `GPIO_motor_PIN_L_1_PIN` (left forward). -/
  L_1 : Bool
  /-- Output `GPIO_motor_PIN_R_0_PIN` (right reverse). -/
  R_0 : Bool
  /-- Output `GPIO_motor_PIN_R_1_PIN` (right forward). -/
  R_1 : Bool
  /-- Output `GPIO_LED_PIN_LED_1_PIN`. -/
  LED_1 : Bool
  /-- `uint8_t Serial_RxData` of `Serial.c`. -/
  Serial_RxData : Nat
  /-- `uint8_t Serial_RxFlag` of `Serial.c`. -/
  Serial_RxFlag : Nat
  /-- Bytes handed to `DL_UART_transmitData`, oldest first. -/
  tx : List Nat
  /-- Output `TRIG_PIN` of `ultrasonic.c`. -/
  TRIG : Bool
  /-- `uint32_t g_echo_start` of `ultrasonic.c`. -/
  g_echo_start : Nat
  /-- `uint32_t g_echo_end` of `ultrasonic.c`. -/
  g_echo_end : Nat
  /-- `uint8_t g_measure_done` of `ultrasonic.c`. -/
  g_measure_done : Nat
  /-- Model clock: microseconds spent in busy-waits. -/
  elapsed_us : Nat
  /-- Level driven on the transmit pin `GPIO_PA18` of `sw_uart.c`. -/
  PA18 : Bool := false
  /-- Writes to `GPIO_PA18`, oldest first: the model clock at the write and the
  level written. A level is held until the next write. -/
  PA18_log : List (Nat × Bool) := []
  deriving DecidableEq

/-- The motor-facing part of the state: left compare, right compare, `L_0`,
`L_1`, `R_0`, `R_1`. -/
def motorState (s : State) : Nat × Nat × Bool × Bool × Bool × Bool :=
  (s.PWM_0_CC0, s.PWM_1_CC0, s.L_0, s.L_1, s.R_0, s.R_1)

/-! ## motor.c -/

/-- Turns the driver on: `STBY` high. -/
def motor_on (s : State) : State :=
  { s with STBY := true }

/-- Turns the driver off: `STBY` low and the four direction pins cleared. -/
def motor_off (s : State) : State :=
  { s with STBY := false, L_0 := false, L_1 := false, R_0 := false, R_1 := false }

/-- The assignment `comparevalue = 3199 - 3199 * (oil / 100.0)`: the operand is
converted to `double`, the three operations are carried out in binary64 and the
result is converted to `uint32_t`. -/
def pwmCompare (oil : Int) : Option Nat :=
  toUInt32 (f64 (3199 - f64 (3199 * f64 ((oil : ℚ) / 100))))

/-- Embedding of `void set_pwm(int left_oil, int right_oil)`. -/
def set_pwm (left_oil right_oil : Int) (s : State) : Option State :=
  (if left_oil ≥ 0 then
    (pwmCompare left_oil).map fun c =>
      { s with comparevalue := c, PWM_0_CC0 := c, L_1 := true, L_0 := false }
  else
    (pwmCompare (-left_oil)).map fun c =>
      { s with comparevalue := c, PWM_0_CC0 := c, L_0 := true, L_1 := false }).bind
  fun s1 =>
    let s2 := { s1 with LED_1 := false }
    if right_oil ≥ 0 then
      (pwmCompare right_oil).map fun c =>
        { s2 with comparevalue := c, PWM_1_CC0 := c, R_1 := true, R_0 := false }
    else
      (pwmCompare (-right_oil)).map fun c =>
        { s2 with comparevalue := c, PWM_1_CC0 := c, R_0 := true, R_1 := false }

/-- Embedding of `void LeftMotor_SetSpeed(int8_t Speed)`. The three branches
are tested in the order of the source: `Speed >= 0`, then `Speed == 0`. -/
def LeftMotor_SetSpeed (Speed : Int) (s : State) : Option State :=
  if Speed ≥ 0 then
    (pwmCompare Speed).map fun c =>
      { s with comparevalue := c, PWM_0_CC0 := c, L_1 := true, L_0 := false }
  else if Speed = 0 then
    some { s with L_0 := false, L_1 := false }
  else
    (pwmCompare (-Speed)).map fun c =>
      { s with comparevalue := c, PWM_0_CC0 := c, L_0 := true, L_1 := false }

/-- Embedding of `void RightMotor_SetSpeed(int8_t Speed)`. -/
def RightMotor_SetSpeed (Speed : Int) (s : State) : Option State :=
  if Speed ≥ 0 then
    (pwmCompare Speed).map fun c =>
      { s with comparevalue := c, PWM_1_CC0 := c, R_1 := true, R_0 := false }
  else if Speed = 0 then
    some { s with R_0 := false, R_1 := false }
  else
    (pwmCompare (-Speed)).map fun c =>
      { s with comparevalue := c, PWM_1_CC0 := c, R_0 := true, R_1 := false }

/-! ### motor.c on a target

The functions above have no result where the conversion to `uint32_t` is
undefined in C. A compiled program still carries on there: the conversion
yields some 32-bit value and the pin writes that follow are executed. The
variants below take that value as the parameter `ub`; they agree with the
functions above wherever those have a result. -/

/-- Conversion of a `double` to `uint32_t` as a target performs it: the value C
defines where it defines one, and otherwise the 32-bit value `ub q` that the
target's conversion yields. -/
def toUInt32_exec (ub : ℚ → Nat) (q : ℚ) : Nat :=
  match toUInt32 q with
  | some n => n
  | none => ub q % 2 ^ 32

/-- The assignment `comparevalue = 3199 - 3199 * (oil / 100.0)` on a target. -/
def pwmCompare_exec (ub : ℚ → Nat) (oil : Int) : Nat :=
  toUInt32_exec ub (f64 (3199 - f64 (3199 * f64 ((oil : ℚ) / 100))))

/-- Embedding of `void LeftMotor_SetSpeed(int8_t Speed)` on a target; the
branches are those of the source, in its order. -/
def LeftMotor_SetSpeed_exec (ub : ℚ → Nat) (Speed : Int) (s : State) : State :=
  if Speed ≥ 0 then
    { s with comparevalue := pwmCompare_exec ub Speed, PWM_0_CC0 := pwmCompare_exec ub Speed,
             L_1 := true, L_0 := false }
  else if Speed = 0 then
    { s with L_0 := false, L_1 := false }
  else
    { s with comparevalue := pwmCompare_exec ub (-Speed),
             PWM_0_CC0 := pwmCompare_exec ub (-Speed), L_0 := true, L_1 := false }

/-- Embedding of `void RightMotor_SetSpeed(int8_t Speed)` on a target. -/
def RightMotor_SetSpeed_exec (ub : ℚ → Nat) (Speed : Int) (s : State) : State :=
  if Speed ≥ 0 then
    { s with comparevalue := pwmCompare_exec ub Speed, PWM_1_CC0 := pwmCompare_exec ub Speed,
             R_1 := true, R_0 := false }
  else if Speed = 0 then
    { s with R_0 := false, R_1 := false }
  else
    { s with comparevalue := pwmCompare_exec ub (-Speed),
             PWM_1_CC0 := pwmCompare_exec ub (-Speed), R_0 := true, R_1 := false }

/-- Embedding of `void set_pwm(int left_oil, int right_oil)` on a target. -/
def set_pwm_exec (ub : ℚ → Nat) (left_oil right_oil : Int) (s : State) : State :=
  let s1 : State :=
    if left_oil ≥ 0 then
      { s with comparevalue := pwmCompare_exec ub left_oil,
               PWM_0_CC0 := pwmCompare_exec ub left_oil, L_1 := true, L_0 := false }
    else
      { s with comparevalue := pwmCompare_exec ub (-left_oil),
               PWM_0_CC0 := pwmCompare_exec ub (-left_oil), L_0 := true, L_1 := false }
  let s2 : State := { s1 with LED_1 := false }
  if right_oil ≥ 0 then
    { s2 with comparevalue := pwmCompare_exec ub right_oil,
              PWM_1_CC0 := pwmCompare_exec ub right_oil, R_1 := true, R_0 := false }
  else
    { s2 with comparevalue := pwmCompare_exec ub (-right_oil),
              PWM_1_CC0 := pwmCompare_exec ub (-right_oil), R_0 := true, R_1 := false }

/-! ## smartcar.c -/

/-- Embedding of `Move_Forward`. -/
def Move_Forward (s : State) : Option State :=
  (LeftMotor_SetSpeed 50 s).bind (RightMotor_SetSpeed 50)

/-- Embedding of `Move_Backward`. -/
def Move_Backward (s : State) : Option State :=
  (LeftMotor_SetSpeed (-50) s).bind (RightMotor_SetSpeed (-50))

/-- Embedding of `Car_Stop`. -/
def Car_Stop (s : State) : Option State :=
  (LeftMotor_SetSpeed 0 s).bind (RightMotor_SetSpeed 0)

/-- Embedding of `Turn_Left`. -/
def Turn_Left (s : State) : Option State :=
  (LeftMotor_SetSpeed 10 s).bind (RightMotor_SetSpeed 50)

/-- Embedding of `Turn_Right`. -/
def Turn_Right (s : State) : Option State :=
  (LeftMotor_SetSpeed 50 s).bind (RightMotor_SetSpeed 10)

/-- Embedding of `Clockwise_Rotation`. -/
def Clockwise_Rotation (s : State) : Option State :=
  (LeftMotor_SetSpeed 50 s).bind (RightMotor_SetSpeed (-50))

/-- Embedding of `CounterClockwise_Rotation`. -/
def CounterClockwise_Rotation (s : State) : Option State :=
  (LeftMotor_SetSpeed (-50) s).bind (RightMotor_SetSpeed 50)

/-! ## Serial.c -/

/-- Bytes of a C string literal (UTF-8 source encoding), without its
terminating NUL. -/
def cstr (lit : String) : List Nat :=
  lit.toUTF8.data.toList.map UInt8.toNat

/-- Embedding of `void Serial_SendByte(uint8_t Byte)`: the wait for
`DL_UART_STATUS_TX_READY` is taken to complete, then the byte is transmitted. -/
def Serial_SendByte (Byte : Nat) (s : State) : State :=
  { s with tx := s.tx ++ [Byte % 256] }

/-- Embedding of `void Serial_SendString(char *String)`: bytes are sent up to
the first NUL; the end of the list stands for the terminating NUL. -/
def Serial_SendString : List Nat → State → State
  | [], s => s
  | c :: rest, s => if c = 0 then s else Serial_SendString rest (Serial_SendByte c s)

/-- Embedding of `uint8_t Serial_GetRxFlag(void)`: the returned value and the
state left behind. -/
def Serial_GetRxFlag (s : State) : Nat × State :=
  if s.Serial_RxFlag ≠ 0 then (1, { s with Serial_RxFlag := 0 }) else (0, s)

/-- Embedding of `uint8_t Serial_GetRxData(void)`. -/
def Serial_GetRxData (s : State) : Nat :=
  s.Serial_RxData

/-- Embedding of `void Serial_ProcessData(void)`. The case labels are the
character constants `'F'` 70, `'B'` 66, `'L'` 76, `'R'` 82, `'A'` 65, `'C'` 67
and `'S'` 83. -/
def Serial_ProcessData (s : State) : Option State :=
  match Serial_GetRxData s with
  | 70 => (Move_Forward s).map (Serial_SendString (cstr "前进\n"))
  | 66 => (Move_Backward s).map (Serial_SendString (cstr "后退\n"))
  | 76 => (Turn_Left s).map (Serial_SendString (cstr "左转\n"))
  | 82 => (Turn_Right s).map (Serial_SendString (cstr "右转\n"))
  | 65 => (CounterClockwise_Rotation s).map (Serial_SendString (cstr "逆时针旋转\n"))
  | 67 => (Clockwise_Rotation s).map (Serial_SendString (cstr "顺时针旋转\n"))
  | 83 => (Car_Stop s).map (Serial_SendString (cstr "停止\n"))
  | _ => some (Serial_SendString (cstr "未知指令，请重新发送\n") s)

/-- Embedding of `void UART0_IRQHandler(void)`. `rxPending` is whether
`status & DL_UART_INTERRUPT_RX` is non-zero and `data` is what
`DL_UART_receiveData` returns (a `uint8_t`). -/
def UART0_IRQHandler (rxPending : Bool) (data : Nat) (s : State) : State :=
  if rxPending then { s with Serial_RxData := data % 256, Serial_RxFlag := 1 } else s

/-- The loop `while (Y--) Result *= X;` of `Serial_Pow` on `uint32_t`. -/
def Serial_Pow_loop (X : Nat) : Nat → Nat → Nat
  | 0, Result => Result
  | Y + 1, Result => Serial_Pow_loop X Y ((Result * X) % 2 ^ 32)

/-- Embedding of `static uint32_t Serial_Pow(uint32_t X, uint32_t Y)`. -/
def Serial_Pow (X Y : Nat) : Nat :=
  Serial_Pow_loop X Y 1

/-- The `for` loop of `Serial_SendNumber`: `n` iterations remain and `i` is the
loop counter. A zero divisor is undefined behaviour. -/
def Serial_SendNumber_loop (Number Length : Nat) : Nat → Nat → State → Option State
  | 0, _, s => some s
  | n + 1, i, s =>
    if Serial_Pow 10 ((Length - i - 1) % 2 ^ 32) = 0 then none
    else
      Serial_SendNumber_loop Number Length n (i + 1)
        (Serial_SendByte (Number / Serial_Pow 10 ((Length - i - 1) % 2 ^ 32) % 10 + 48) s)

/-- Embedding of `void Serial_SendNumber(uint32_t Number, uint8_t Length)`;
`'0'` is 48. -/
def Serial_SendNumber (Number Length : Nat) (s : State) : Option State :=
  Serial_SendNumber_loop Number Length Length 0 s

/-! ## sw_uart.c (delay) and ultrasonic.c -/

/-- Embedding of `swUartDelay(us)`: a busy-wait on the tick counter; its only
effect on the state is the time that passes. -/
def swUartDelay (us : Nat) (s : State) : State :=
  { s with elapsed_us := s.elapsed_us + us }

/-- Embedding of `Ultrasonic_Trigger`. -/
def Ultrasonic_Trigger (s : State) : State :=
  let s1 := { s with TRIG := false }
  let s2 := swUartDelay 2 s1
  let s3 := { s2 with TRIG := true }
  let s4 := swUartDelay 10 s3
  let s5 := { s4 with TRIG := false }
  { s5 with g_measure_done := 0 }

/-- The `uint32_t` difference `g_echo_end - g_echo_start`. -/
def echoDuration (s : State) : Nat :=
  (((s.g_echo_end : Int) - (s.g_echo_start : Int)) % 2 ^ 32).toNat

/-- The constant `0.03432` as the compiler stores it: the nearest binary64. -/
def soundSpeed : ℚ := f64 (3432 / 100000)

/-- The C expression `(duration * 0.03432) / 2` evaluated in binary64 and
converted to `float`, as `return` does in a function of type `float`. -/
def distanceOf (duration : Nat) : ℚ :=
  f32 (f64 (f64 ((duration : ℚ) * soundSpeed) / 2))

/-- Embedding of `Ultrasonic_GetDistance`. -/
def Ultrasonic_GetDistance (s : State) : ℚ :=
  distanceOf (echoDuration s)

/-- Embedding of `Ultrasonic_IRQHandler`. `echoHigh` is whether
`DL_GPIO_readPin(ECHO_PORT, ECHO_PIN)` is non-zero and `tick` is the value read
from `DPL_SYSTICK->CURRENT`. -/
def Ultrasonic_IRQHandler (echoHigh : Bool) (tick : Nat) (s : State) : State :=
  if echoHigh then { s with g_echo_start := tick % 2 ^ 32 }
  else { s with g_echo_end := tick % 2 ^ 32, g_measure_done := 1 }

/-- Modelled from the spec: the macro `SW_UART_DATA_BITS` of `sw_uart.h`, which
is not among the sources; the spec fixes 8 data bits per frame. -/
def SW_UART_DATA_BITS : Nat := 8

/-- The calls `DL_GPIO_setPins(GPIO_PA18)` (`level = true`) and
`DL_GPIO_clearPins(GPIO_PA18)` (`level = false`). -/
def writePA18 (level : Bool) (s : State) : State :=
  { s with PA18 := level, PA18_log := s.PA18_log ++ [(s.elapsed_us, level)] }

/-- The data-bit loop of `swUartSendByte`: `n` iterations remain and `i` is the
loop counter. `baud` is the macro `SW_UART_BAUDRATE`. -/
def swUartSendBits (baud data : Nat) : Nat → Nat → State → State
  | 0, _, s => s
  | n + 1, i, s =>
    swUartSendBits baud data n (i + 1)
      (swUartDelay (1000000 / baud) (writePA18 (decide (data &&& (1 <<< i) ≠ 0)) s))

/-- Embedding of `void swUartSendByte(uint8_t data)`. -/
def swUartSendByte (baud data : Nat) (s : State) : State :=
  let s1 := swUartDelay (1000000 / baud) (writePA18 false s)
  let s2 := swUartSendBits baud (data % 256) SW_UART_DATA_BITS 0 s1
  swUartDelay (1000000 / baud) (writePA18 true s2)

/-- The loop `while (DL_GPIO_readPin(GPIO_PA8));`. `line t` is the level of the
receive pin at model time `t`; the pin is polled once per microsecond and at
most `fuel` times, and the loop is not left while the line stays high. -/
def waitStartBit (line : Nat → Bool) : Nat → State → Option State
  | 0, _ => none
  | fuel + 1, s =>
    if line s.elapsed_us then waitStartBit line fuel { s with elapsed_us := s.elapsed_us + 1 }
    else some s

/-- The data-bit loop of `swUartReceiveByte`: `n` iterations remain, `i` is the
loop counter and `data` the `uint8_t` accumulator. -/
def swUartReceiveBits (baud : Nat) (line : Nat → Bool) : Nat → Nat → Nat → State → Nat × State
  | 0, _, data, s => (data, s)
  | n + 1, i, data, s =>
    swUartReceiveBits baud line n (i + 1)
      (if line s.elapsed_us then (data ||| (1 <<< i)) % 256 else data)
      (swUartDelay (1000000 / baud) s)

/-- Embedding of `uint8_t swUartReceiveByte(void)`: the returned byte and the
state left behind, or nothing when the start bit is not seen within `fuel` polls. -/
def swUartReceiveByte (baud : Nat) (line : Nat → Bool) (fuel : Nat) (s : State) :
    Option (Nat × State) :=
  (waitStartBit line fuel s).map fun s1 =>
    let s2 := swUartDelay (1000000 / baud / 2) s1
    let r := swUartReceiveBits baud line SW_UART_DATA_BITS 0 0 s2
    (r.1, swUartDelay (1000000 / baud) r.2)

/-- The byte the receive loop accumulates from the samples `f i`: `n` iterations
remain, `i` is the loop counter and `data` the accumulator. -/
def rxValue (f : Nat → Bool) : Nat → Nat → Nat → Nat
  | 0, _, data => data
  | n + 1, i, data => rxValue f n (i + 1) (if f i then (data ||| (1 <<< i)) % 256 else data)

/-- The state after reset: globals zero-initialised, outputs low, nothing sent. -/
def resetState : State :=
  { comparevalue := 0, PWM_0_CC0 := 0, PWM_1_CC0 := 0, STBY := false, L_0 := false,
    L_1 := false, R_0 := false, R_1 := false, LED_1 := false, Serial_RxData := 0,
    Serial_RxFlag := 0, tx := [], TRIG := false, g_echo_start := 0, g_echo_end := 0,
    g_measure_done := 0, elapsed_us := 0 }

/-! ## The specification's wording -/

/-- The command table of the serial protocol: command byte, left duty, right
duty, echoed text. -/
def specCommandTable : List (Nat × Int × Int × List Nat) :=
  [ (70, 50, 50, cstr "前进\n"),
    (66, -50, -50, cstr "后退\n"),
    (76, 10, 50, cstr "左转\n"),
    (82, 50, 10, cstr "右转\n"),
    (65, -50, 50, cstr "逆时针旋转\n"),
    (67, 50, -50, cstr "顺时针旋转\n"),
    (83, 0, 0, cstr "停止\n") ]

/-- The compare value as the specification words it: `3199 − 3199·d/100` in
exact arithmetic, truncated toward zero to an unsigned integer. -/
def specCompare (d : Int) : Nat :=
  (truncQ (3199 - 3199 * (d : ℚ) / 100)).toNat

/-- The distance as the specification words it, in exact arithmetic:
`((stop − start) mod 2^32) · 0.03432 / 2`. -/
def specDistance (start stop : Nat) : ℚ :=
  (((((stop : Int) - (start : Int)) % 2 ^ 32 : Int)) : ℚ) * (3432 / 100000) / 2

/-- The serial frame as the specification words it: idle high before the
falling edge at `t0`, low during the first bit period `T`, data bit `i` of `b`
during period `i + 1` (least significant first), high from period 9 on. -/
def specFrame (t0 T b : Nat) (t : Nat) : Bool :=
  if t < t0 then true
  else if (t - t0) / T = 0 then false
  else if (t - t0) / T ≤ 8 then b.testBit ((t - t0) / T - 1)
  else true

/-- The ten levels of a frame as the specification words them: start bit low,
the eight bits of `b` least significant first, stop bit high. -/
def specLevels (b : Nat) : List Bool :=
  false :: ((List.range 8).map fun i => b.testBit i) ++ [true]

/-- The digits of `Serial_SendNumber` as the specification words them: for
`i < Length` the ASCII digit `'0' + (Number / 10^(Length−1−i)) mod 10`. -/
def specDigits (Number Length : Nat) : List Nat :=
  (List.range Length).map fun i => 48 + (Number / 10 ^ (Length - 1 - i)) % 10

/-- Neither side has both direction pins asserted. -/
def pinsExclusive (s : State) : Prop :=
  ¬ (s.L_0 = true ∧ s.L_1 = true) ∧ ¬ (s.R_0 = true ∧ s.R_1 = true)

/-! ## Facts about the rounding model -/

/-- The executable `pow2` is the integer power of two. -/
theorem pow2_eq_zpow (k : Int) : pow2 k = (2 : ℚ) ^ k := by
  unfold pow2
  split_ifs with h
  · rw [Nat.cast_pow, Nat.cast_ofNat, ← zpow_natCast, Int.toNat_of_nonneg h]
  · have h' : 0 ≤ -k := by omega
    rw [Nat.cast_pow, Nat.cast_ofNat, ← zpow_natCast, Int.toNat_of_nonneg h', zpow_neg]
    simp

/-- With enough fuel `log2Fuel` is the base-2 logarithm. -/
theorem log2Fuel_eq_log (fuel n : Nat) (h : n ≤ fuel) : log2Fuel fuel n = Nat.log 2 n := by
  induction fuel generalizing n with
  | zero =>
    have : n = 0 := by omega
    subst this
    simp [log2Fuel]
  | succ f ih =>
    unfold log2Fuel
    split_ifs with h2
    · exact (Nat.log_of_lt h2).symm
    · have h3 : 2 ≤ n := by omega
      rw [Nat.log_of_one_lt_of_le (by norm_num) h3, ih (n / 2) (by omega)]

/-- The executable `natLog2` is the base-2 logarithm of Mathlib. -/
theorem natLog2_eq_log (n : Nat) : natLog2 n = Nat.log 2 n :=
  log2Fuel_eq_log n n le_rfl

/-- Specification of `floorLog2`: it brackets a positive rational between
consecutive powers of two. -/
theorem floorLog2_spec (q : ℚ) (hq : 0 < q) :
    (2 : ℚ) ^ floorLog2 q ≤ q ∧ q < (2 : ℚ) ^ (floorLog2 q + 1) := by
  have hnum : 0 < q.num := Rat.num_pos.mpr hq
  have ha0 : q.num.natAbs ≠ 0 := by omega
  have hb0 : q.den ≠ 0 := q.den_nz
  have hcast : ((q.num.natAbs : Nat) : ℚ) = (q.num : ℚ) := by
    rw [Nat.cast_natAbs, abs_of_pos hnum]
  have hqd : q = (q.num.natAbs : ℚ) / (q.den : ℚ) := by
    rw [hcast]; exact (Rat.num_div_den q).symm
  have hbpos : (0 : ℚ) < (q.den : ℚ) := by exact_mod_cast q.den_pos
  have a_lo : ((2 : ℚ) ^ (Nat.log 2 q.num.natAbs)) ≤ (q.num.natAbs : ℚ) := by
    exact_mod_cast Nat.pow_log_le_self 2 ha0
  have a_hi : (q.num.natAbs : ℚ) < (2 : ℚ) ^ (Nat.log 2 q.num.natAbs + 1) := by
    exact_mod_cast Nat.lt_pow_succ_log_self (by norm_num : 1 < 2) q.num.natAbs
  have b_lo : ((2 : ℚ) ^ (Nat.log 2 q.den)) ≤ (q.den : ℚ) := by
    exact_mod_cast Nat.pow_log_le_self 2 hb0
  have b_hi : (q.den : ℚ) < (2 : ℚ) ^ (Nat.log 2 q.den + 1) := by
    exact_mod_cast Nat.lt_pow_succ_log_self (by norm_num : 1 < 2) q.den
  set la := Nat.log 2 q.num.natAbs with hla
  set lb := Nat.log 2 q.den with hlb
  have two_ne : (2 : ℚ) ≠ 0 := by norm_num
  have hlow : (2 : ℚ) ^ ((la : Int) - (lb : Int) - 1) < q := by
    have e : (2 : ℚ) ^ ((la : Int) - (lb : Int) - 1) = (2 : ℚ) ^ la / (2 : ℚ) ^ (lb + 1) := by
      rw [show (la : Int) - (lb : Int) - 1 = (la : Int) - ((lb + 1 : Nat) : Int) by push_cast; ring,
        zpow_sub₀ two_ne, zpow_natCast, zpow_natCast]
    rw [e, hqd, div_lt_div_iff₀ (by positivity) hbpos]
    calc (2 : ℚ) ^ la * (q.den : ℚ) < (2 : ℚ) ^ la * (2 : ℚ) ^ (lb + 1) := by
          apply mul_lt_mul_of_pos_left b_hi (by positivity)
      _ ≤ (q.num.natAbs : ℚ) * (2 : ℚ) ^ (lb + 1) := by
          apply mul_le_mul_of_nonneg_right a_lo (by positivity)
  have hhigh : q < (2 : ℚ) ^ ((la : Int) - (lb : Int) + 1) := by
    have e : (2 : ℚ) ^ ((la : Int) - (lb : Int) + 1) = (2 : ℚ) ^ (la + 1) / (2 : ℚ) ^ lb := by
      rw [show (la : Int) - (lb : Int) + 1 = ((la + 1 : Nat) : Int) - (lb : Int) by push_cast; ring,
        zpow_sub₀ two_ne, zpow_natCast, zpow_natCast]
    rw [e]
    nth_rewrite 1 [hqd]
    rw [div_lt_div_iff₀ hbpos (by positivity)]
    calc (q.num.natAbs : ℚ) * (2 : ℚ) ^ lb < (2 : ℚ) ^ (la + 1) * (2 : ℚ) ^ lb := by
          apply mul_lt_mul_of_pos_right a_hi (by positivity)
      _ ≤ (2 : ℚ) ^ (la + 1) * (q.den : ℚ) := by
          apply mul_le_mul_of_nonneg_left b_lo (by positivity)
  unfold floorLog2
  simp only [natLog2_eq_log, pow2_eq_zpow, ← hla, ← hlb]
  split_ifs with h
  · exact ⟨h, hhigh⟩
  · refine ⟨hlow.le, ?_⟩
    rw [sub_add_cancel]
    exact lt_of_not_le h

/-- The floor used by the model is the floor of the ordered field. -/
theorem ratFloor_eq (q : ℚ) : Rat.floor q = ⌊q⌋ := rfl

/-- Rounding to nearest never goes below the floor. -/
theorem rne_floor_le (q : ℚ) : ⌊q⌋ ≤ roundNearestEven q := by
  unfold roundNearestEven
  simp only [ratFloor_eq]
  split_ifs <;> omega

/-- Rounding to nearest never goes above the floor plus one. -/
theorem rne_le_floor_succ (q : ℚ) : roundNearestEven q ≤ ⌊q⌋ + 1 := by
  unfold roundNearestEven
  simp only [ratFloor_eq]
  split_ifs <;> omega

/-- Below the midpoint, rounding to nearest is the floor. -/
theorem rne_of_fract_zero (q : ℚ) (h : q - (⌊q⌋ : ℚ) < 1 / 2) :
    roundNearestEven q = ⌊q⌋ := by
  unfold roundNearestEven
  simp only [ratFloor_eq]
  rw [if_pos h]

/-- Rounding to nearest does not cross an integer from above. -/
theorem intCast_le_rne (n : Int) (q : ℚ) (h : (n : ℚ) ≤ q) : n ≤ roundNearestEven q :=
  le_trans (Int.le_floor.mpr h) (rne_floor_le q)

/-- Rounding to nearest does not cross an integer from below. -/
theorem rne_le_intCast (n : Int) (q : ℚ) (h : q ≤ (n : ℚ)) : roundNearestEven q ≤ n := by
  rcases lt_or_eq_of_le (Int.floor_le_floor h) with h1 | h1
  · rw [Int.floor_intCast] at h1
    have := rne_le_floor_succ q
    omega
  · rw [Int.floor_intCast] at h1
    have hq : q = (n : ℚ) := le_antisymm h (by rw [← h1]; exact Int.floor_le q)
    rw [rne_of_fract_zero q (by rw [h1, hq]; norm_num), h1]

/-- Rounding to nearest, ties to even, is monotone. -/
theorem rne_mono (x y : ℚ) (h : x ≤ y) : roundNearestEven x ≤ roundNearestEven y := by
  rcases lt_or_eq_of_le (Int.floor_le_floor h) with h1 | h1
  · have := rne_le_floor_succ x
    have := rne_floor_le y
    omega
  · unfold roundNearestEven
    simp only [ratFloor_eq, h1]
    split_ifs <;> first | omega | linarith

/-- Powers of two are positive. -/
theorem two_zpow_pos (k : Int) : (0 : ℚ) < (2 : ℚ) ^ k := zpow_pos (by norm_num) k

/-- Unfolding of `roundFloat` at a non-zero argument. -/
theorem roundFloat_of_ne (prec : Nat) (emin : Int) (q : ℚ) (hq : q ≠ 0) :
    roundFloat prec emin q =
      (roundNearestEven (q / (2 : ℚ) ^ ulpExp prec emin q) : ℚ)
        * (2 : ℚ) ^ ulpExp prec emin q := by
  unfold roundFloat
  rw [if_neg hq, pow2_eq_zpow]

/-- Rounding does not exceed a multiple of the unit in the last place that
bounds the argument from above. -/
theorem roundFloat_le_grid (prec : Nat) (emin : Int) (q : ℚ) (N : Int) (hq : q ≠ 0)
    (h : q ≤ (N : ℚ) * (2 : ℚ) ^ ulpExp prec emin q) :
    roundFloat prec emin q ≤ (N : ℚ) * (2 : ℚ) ^ ulpExp prec emin q := by
  rw [roundFloat_of_ne prec emin q hq]
  apply mul_le_mul_of_nonneg_right _ (two_zpow_pos _).le
  have : roundNearestEven (q / (2 : ℚ) ^ ulpExp prec emin q) ≤ N :=
    rne_le_intCast N _ ((div_le_iff₀ (two_zpow_pos _)).mpr h)
  exact_mod_cast this

/-- Rounding does not fall below a multiple of the unit in the last place that
bounds the argument from below. -/
theorem grid_le_roundFloat (prec : Nat) (emin : Int) (q : ℚ) (N : Int) (hq : q ≠ 0)
    (h : (N : ℚ) * (2 : ℚ) ^ ulpExp prec emin q ≤ q) :
    (N : ℚ) * (2 : ℚ) ^ ulpExp prec emin q ≤ roundFloat prec emin q := by
  rw [roundFloat_of_ne prec emin q hq]
  apply mul_le_mul_of_nonneg_right _ (two_zpow_pos _).le
  have : N ≤ roundNearestEven (q / (2 : ℚ) ^ ulpExp prec emin q) :=
    intCast_le_rne N _ ((le_div_iff₀ (two_zpow_pos _)).mpr h)
  exact_mod_cast this

/-- Rounding a non-negative value gives a non-negative value. -/
theorem roundFloat_nonneg (prec : Nat) (emin : Int) (q : ℚ) (hq : 0 ≤ q) :
    0 ≤ roundFloat prec emin q := by
  by_cases h0 : q = 0
  · simp [roundFloat, h0]
  · have := grid_le_roundFloat prec emin q 0 h0 (by simpa using hq)
    simpa using this

/-- The binade index is monotone on positive rationals. -/
theorem floorLog2_mono (x y : ℚ) (hx : 0 < x) (hxy : x ≤ y) : floorLog2 x ≤ floorLog2 y := by
  have h1 := (floorLog2_spec x hx).1
  have h2 := (floorLog2_spec y (lt_of_lt_of_le hx hxy)).2
  have h3 : (2 : ℚ) ^ floorLog2 x < (2 : ℚ) ^ (floorLog2 y + 1) :=
    lt_of_le_of_lt (le_trans h1 hxy) h2
  have := (zpow_lt_zpow_iff_right₀ (by norm_num : (1 : ℚ) < 2)).mp h3
  omega

/-- Floating-point rounding is monotone on non-negative values. -/
theorem roundFloat_mono (prec : Nat) (emin : Int) (hprec : 1 ≤ prec) (x y : ℚ)
    (hx : 0 ≤ x) (hxy : x ≤ y) : roundFloat prec emin x ≤ roundFloat prec emin y := by
  rcases eq_or_lt_of_le hx with hx0 | hxpos
  · rw [← hx0]
    simpa [roundFloat] using roundFloat_nonneg prec emin y (le_trans hx hxy)
  have hypos : 0 < y := lt_of_lt_of_le hxpos hxy
  have hlog := floorLog2_mono x y hxpos hxy
  have hsx := floorLog2_spec x hxpos
  have hsy := floorLog2_spec y hypos
  have hpx : ulpExp prec emin x = max (floorLog2 x) emin - ((prec : Int) - 1) := by
    unfold ulpExp; rw [abs_of_pos hxpos]
  have hpy : ulpExp prec emin y = max (floorLog2 y) emin - ((prec : Int) - 1) := by
    unfold ulpExp; rw [abs_of_pos hypos]
  have hprec' : (1 : Int) ≤ (prec : Int) := by exact_mod_cast hprec
  rcases lt_or_eq_of_le (max_le_max_right emin hlog) with hlt | heq
  · -- the two arguments lie in different binades
    have hEy : max (floorLog2 y) emin = floorLog2 y := by
      rcases le_total (floorLog2 y) emin with h | h
      · rw [max_eq_right h] at hlt
        exact absurd hlt (not_lt.mpr (le_max_right _ _))
      · exact max_eq_left h
    -- an upper grid point for `x`
    have gx : roundFloat prec emin x ≤ (2 : ℚ) ^ (max (floorLog2 x) emin + 1) := by
      have e : (2 : ℚ) ^ (max (floorLog2 x) emin + 1)
          = (((2 : Int) ^ prec : Int) : ℚ) * (2 : ℚ) ^ ulpExp prec emin x := by
        rw [hpx]; push_cast
        rw [← zpow_natCast, ← zpow_add₀ (by norm_num : (2 : ℚ) ≠ 0)]
        congr 1; ring
      rw [e]
      apply roundFloat_le_grid prec emin x _ hxpos.ne'
      rw [← e]
      exact le_trans hsx.2.le (zpow_le_zpow_right₀ (by norm_num) (by
        have := le_max_left (floorLog2 x) emin; omega))
    -- a lower grid point for `y`
    have gy : (2 : ℚ) ^ (floorLog2 y) ≤ roundFloat prec emin y := by
      have e : (2 : ℚ) ^ (floorLog2 y)
          = (((2 : Int) ^ (prec - 1) : Int) : ℚ) * (2 : ℚ) ^ ulpExp prec emin y := by
        rw [hpy, hEy]; push_cast
        rw [← zpow_natCast, ← zpow_add₀ (by norm_num : (2 : ℚ) ≠ 0)]
        congr 1
        rw [Nat.cast_sub hprec]; push_cast; ring
      rw [e]
      apply grid_le_roundFloat prec emin y _ hypos.ne'
      rw [← e]
      exact hsy.1
    refine le_trans gx (le_trans (zpow_le_zpow_right₀ (by norm_num) ?_) gy)
    rw [hEy] at hlt
    omega
  · -- same unit in the last place
    have hp : ulpExp prec emin x = ulpExp prec emin y := by rw [hpx, hpy, heq]
    rw [roundFloat_of_ne prec emin x hxpos.ne', roundFloat_of_ne prec emin y hypos.ne', hp]
    apply mul_le_mul_of_nonneg_right _ (two_zpow_pos _).le
    have := rne_mono (x / (2 : ℚ) ^ ulpExp prec emin y) (y / (2 : ℚ) ^ ulpExp prec emin y)
      (div_le_div_of_nonneg_right hxy (two_zpow_pos _).le)
    exact_mod_cast this

/-- Rounding to binary64 is monotone on non-negative values. -/
theorem f64_mono (x y : ℚ) (hx : 0 ≤ x) (hxy : x ≤ y) : f64 x ≤ f64 y :=
  roundFloat_mono 53 (-1022) (by norm_num) x y hx hxy

/-- Rounding to binary32 is monotone on non-negative values. -/
theorem f32_mono (x y : ℚ) (hx : 0 ≤ x) (hxy : x ≤ y) : f32 x ≤ f32 y :=
  roundFloat_mono 24 (-126) (by norm_num) x y hx hxy

/-- Rounding a non-negative value to binary64 gives a non-negative value. -/
theorem f64_nonneg (x : ℚ) (hx : 0 ≤ x) : 0 ≤ f64 x := roundFloat_nonneg 53 (-1022) x hx

/-- The stored constant `0.03432` is positive. -/
theorem soundSpeed_pos : 0 < soundSpeed := by decide!

/-- The computed distance is monotone in the duration. -/
theorem distanceOf_mono (m n : Nat) (h : m ≤ n) : distanceOf m ≤ distanceOf n := by
  have hc := soundSpeed_pos.le
  have hm : (0 : ℚ) ≤ (m : ℚ) * soundSpeed := mul_nonneg (Nat.cast_nonneg m) hc
  have h1 : (m : ℚ) * soundSpeed ≤ (n : ℚ) * soundSpeed :=
    mul_le_mul_of_nonneg_right (by exact_mod_cast h) hc
  have h2 := f64_mono _ _ hm h1
  have h3 : f64 ((m : ℚ) * soundSpeed) / 2 ≤ f64 ((n : ℚ) * soundSpeed) / 2 := by linarith
  have h4 := f64_mono _ _ (by linarith [f64_nonneg _ hm]) h3
  exact f32_mono _ _ (f64_nonneg _ (by linarith [f64_nonneg _ hm])) h4

/-- The duration is the 32-bit wrapped difference of the two timestamps. -/
theorem echoDuration_eq (s : State) :
    ((echoDuration s : Nat) : Int) = ((s.g_echo_end : Int) - (s.g_echo_start : Int)) % 2 ^ 32 := by
  unfold echoDuration
  exact Int.toNat_of_nonneg (Int.emod_nonneg _ (by norm_num))

/-- Compare value written for duty 50. -/
theorem pwmCompare_50 : pwmCompare 50 = some 1599 := by decide!

/-- Compare value written for duty 10. -/
theorem pwmCompare_10 : pwmCompare 10 = some 2879 := by decide!

/-- Compare value written for duty 0. -/
theorem pwmCompare_0 : pwmCompare 0 = some 3199 := by decide!

/-- Rounding to nearest moves a value by at most one half. -/
theorem rne_abs_sub_le (t : ℚ) : |(roundNearestEven t : ℚ) - t| ≤ 1 / 2 := by
  have h1 : (⌊t⌋ : ℚ) ≤ t := Int.floor_le t
  have h2 : t < (⌊t⌋ : ℚ) + 1 := Int.lt_floor_add_one t
  unfold roundNearestEven
  simp only [ratFloor_eq]
  rw [abs_le]
  split_ifs <;> push_cast <;> constructor <;> linarith

/-- Relative error of rounding in the normal range: at most `2 ^ (-prec)`. -/
theorem roundFloat_rel_err (prec : Nat) (emin : Int) (q : ℚ) (hq : 0 < q)
    (hnorm : (2 : ℚ) ^ emin ≤ q) :
    |roundFloat prec emin q - q| ≤ q * (2 : ℚ) ^ (-(prec : Int)) := by
  have hs := floorLog2_spec q hq
  have he : emin ≤ floorLog2 q := by
    have := (zpow_lt_zpow_iff_right₀ (by norm_num : (1 : ℚ) < 2)).mp (lt_of_le_of_lt hnorm hs.2)
    omega
  have hp : ulpExp prec emin q = floorLog2 q - ((prec : Int) - 1) := by
    unfold ulpExp; rw [abs_of_pos hq, max_eq_left he]
  have hpos := two_zpow_pos (ulpExp prec emin q)
  rw [roundFloat_of_ne prec emin q hq.ne']
  have hr := rne_abs_sub_le (q / (2 : ℚ) ^ ulpExp prec emin q)
  have e1 : (roundNearestEven (q / (2 : ℚ) ^ ulpExp prec emin q) : ℚ)
        * (2 : ℚ) ^ ulpExp prec emin q - q
      = ((roundNearestEven (q / (2 : ℚ) ^ ulpExp prec emin q) : ℚ)
          - q / (2 : ℚ) ^ ulpExp prec emin q)
        * (2 : ℚ) ^ ulpExp prec emin q := by
    field_simp
  rw [e1, abs_mul, abs_of_pos hpos]
  have e2 : (1 / 2 : ℚ) * (2 : ℚ) ^ ulpExp prec emin q
      = (2 : ℚ) ^ floorLog2 q * (2 : ℚ) ^ (-(prec : Int)) := by
    rw [hp, ← zpow_add₀ (by norm_num : (2 : ℚ) ≠ 0),
      show floorLog2 q + -(prec : Int) = (floorLog2 q - ((prec : Int) - 1)) + (-1) by ring,
      zpow_add₀ (by norm_num : (2 : ℚ) ≠ 0)]
    norm_num
    ring
  calc _ ≤ (1 / 2 : ℚ) * (2 : ℚ) ^ ulpExp prec emin q :=
        mul_le_mul_of_nonneg_right hr hpos.le
    _ = (2 : ℚ) ^ floorLog2 q * (2 : ℚ) ^ (-(prec : Int)) := e2
    _ ≤ q * (2 : ℚ) ^ (-(prec : Int)) :=
        mul_le_mul_of_nonneg_right hs.1 (two_zpow_pos _).le

/-- Binary64 rounding of a value of at least `1/1024` has relative error at most
`2 ^ (-53)`. -/
theorem f64_bounds (q : ℚ) (hq : 1 / 1024 ≤ q) :
    q * (1 - 1 / 2 ^ 53) ≤ f64 q ∧ f64 q ≤ q * (1 + 1 / 2 ^ 53) := by
  have hpos : 0 < q := lt_of_lt_of_le (by norm_num) hq
  have hn : (2 : ℚ) ^ (-1022 : Int) ≤ q := by
    refine le_trans (le_trans
      (zpow_le_zpow_right₀ (by norm_num) (by norm_num : (-1022 : Int) ≤ -10)) ?_) hq
    rw [zpow_neg]; norm_num
  have h := roundFloat_rel_err 53 (-1022) q hpos hn
  have e : (2 : ℚ) ^ (-((53 : Nat) : Int)) = 1 / 2 ^ 53 := by
    rw [zpow_neg, zpow_natCast]; norm_num
  rw [e, abs_le] at h
  unfold f64
  constructor <;> linarith [h.1, h.2]

/-- Binary32 rounding of a value of at least `1/1024` has relative error at most
`2 ^ (-24)`. -/
theorem f32_bounds (q : ℚ) (hq : 1 / 1024 ≤ q) :
    q * (1 - 1 / 2 ^ 24) ≤ f32 q ∧ f32 q ≤ q * (1 + 1 / 2 ^ 24) := by
  have hpos : 0 < q := lt_of_lt_of_le (by norm_num) hq
  have hn : (2 : ℚ) ^ (-126 : Int) ≤ q := by
    refine le_trans (le_trans
      (zpow_le_zpow_right₀ (by norm_num) (by norm_num : (-126 : Int) ≤ -10)) ?_) hq
    rw [zpow_neg]; norm_num
  have h := roundFloat_rel_err 24 (-126) q hpos hn
  have e : (2 : ℚ) ^ (-((24 : Nat) : Int)) = 1 / 2 ^ 24 := by
    rw [zpow_neg, zpow_natCast]; norm_num
  rw [e, abs_le] at h
  unfold f32
  constructor <;> linarith [h.1, h.2]

/-- Duration 0 gives distance 0. -/
theorem distanceOf_zero : distanceOf 0 = 0 := by decide!

/-- The computed `float` distance is within relative error `2 ^ (-23)` of the
exact `duration · 0.03432 / 2`. -/
theorem distanceOf_rel_err (n : Nat) :
    |distanceOf n - (n : ℚ) * (3432 / 100000) / 2|
      ≤ (n : ℚ) * (3432 / 100000) / 2 / 2 ^ 23 := by
  rcases Nat.eq_zero_or_pos n with h0 | hpos
  · subst h0
    rw [distanceOf_zero]
    norm_num
  have hn : (1 : ℚ) ≤ (n : ℚ) := by exact_mod_cast hpos
  have hc := f64_bounds (3432 / 100000) (by norm_num)
  have hc' : soundSpeed = f64 (3432 / 100000) := rfl
  rw [← hc'] at hc
  have hc32 : (1 / 32 : ℚ) ≤ soundSpeed := by linarith [hc.1]
  have q1 : (1 / 32 : ℚ) ≤ (n : ℚ) * soundSpeed := by nlinarith
  have b1 := f64_bounds ((n : ℚ) * soundSpeed) (by linarith)
  have q2 : (1 / 128 : ℚ) ≤ f64 ((n : ℚ) * soundSpeed) / 2 := by nlinarith [b1.1]
  have b2 := f64_bounds (f64 ((n : ℚ) * soundSpeed) / 2) (by linarith)
  have q3 : (1 / 256 : ℚ) ≤ f64 (f64 ((n : ℚ) * soundSpeed) / 2) := by nlinarith [b2.1]
  have b3 := f32_bounds (f64 (f64 ((n : ℚ) * soundSpeed) / 2)) (by linarith)
  unfold distanceOf
  generalize f32 (f64 (f64 ((n : ℚ) * soundSpeed) / 2)) = x3 at b3 ⊢
  generalize f64 (f64 ((n : ℚ) * soundSpeed) / 2) = x2 at b2 b3 q3
  generalize f64 ((n : ℚ) * soundSpeed) = x1 at b1 b2 q2
  generalize soundSpeed = c at hc hc32 q1 b1
  have hu : (0 : ℚ) ≤ 1 - 1 / 2 ^ 53 := by norm_num
  have hu' : (0 : ℚ) ≤ 1 + 1 / 2 ^ 53 := by norm_num
  have hv : (0 : ℚ) ≤ 1 - 1 / 2 ^ 24 := by norm_num
  have hv' : (0 : ℚ) ≤ 1 + 1 / 2 ^ 24 := by norm_num
  have hn0 : (0 : ℚ) ≤ (n : ℚ) := by linarith
  -- upper chain
  have U1 : x1 ≤ (n : ℚ) * (3432 / 100000) * (1 + 1 / 2 ^ 53) ^ 2 := by
    calc x1 ≤ (n : ℚ) * c * (1 + 1 / 2 ^ 53) := b1.2
      _ ≤ (n : ℚ) * (3432 / 100000 * (1 + 1 / 2 ^ 53)) * (1 + 1 / 2 ^ 53) := by
          gcongr; exact hc.2
      _ = _ := by ring
  have U2 : x2 ≤ (n : ℚ) * (3432 / 100000) / 2 * (1 + 1 / 2 ^ 53) ^ 3 := by
    calc x2 ≤ x1 / 2 * (1 + 1 / 2 ^ 53) := b2.2
      _ ≤ ((n : ℚ) * (3432 / 100000) * (1 + 1 / 2 ^ 53) ^ 2) / 2 * (1 + 1 / 2 ^ 53) := by
          gcongr
      _ = _ := by ring
  have U3 : x3 ≤ (n : ℚ) * (3432 / 100000) / 2 * ((1 + 1 / 2 ^ 53) ^ 3 * (1 + 1 / 2 ^ 24)) := by
    calc x3 ≤ x2 * (1 + 1 / 2 ^ 24) := b3.2
      _ ≤ ((n : ℚ) * (3432 / 100000) / 2 * (1 + 1 / 2 ^ 53) ^ 3) * (1 + 1 / 2 ^ 24) := by
          gcongr
      _ = _ := by ring
  -- lower chain
  have L1 : (n : ℚ) * (3432 / 100000) * (1 - 1 / 2 ^ 53) ^ 2 ≤ x1 := by
    calc _ = (n : ℚ) * (3432 / 100000 * (1 - 1 / 2 ^ 53)) * (1 - 1 / 2 ^ 53) := by ring
      _ ≤ (n : ℚ) * c * (1 - 1 / 2 ^ 53) := by
          gcongr; exact hc.1
      _ ≤ x1 := b1.1
  have L2 : (n : ℚ) * (3432 / 100000) / 2 * (1 - 1 / 2 ^ 53) ^ 3 ≤ x2 := by
    calc _ = ((n : ℚ) * (3432 / 100000) * (1 - 1 / 2 ^ 53) ^ 2) / 2 * (1 - 1 / 2 ^ 53) := by ring
      _ ≤ x1 / 2 * (1 - 1 / 2 ^ 53) := by gcongr
      _ ≤ x2 := b2.1
  have L3 : (n : ℚ) * (3432 / 100000) / 2 * ((1 - 1 / 2 ^ 53) ^ 3 * (1 - 1 / 2 ^ 24)) ≤ x3 := by
    calc _ = ((n : ℚ) * (3432 / 100000) / 2 * (1 - 1 / 2 ^ 53) ^ 3) * (1 - 1 / 2 ^ 24) := by ring
      _ ≤ x2 * (1 - 1 / 2 ^ 24) := by gcongr
      _ ≤ x3 := b3.1
  have hD : (0 : ℚ) ≤ (n : ℚ) * (3432 / 100000) / 2 := by positivity
  have k1 : ((1 : ℚ) + 1 / 2 ^ 53) ^ 3 * (1 + 1 / 2 ^ 24) ≤ 1 + 1 / 2 ^ 23 := by norm_num
  have k2 : (1 : ℚ) - 1 / 2 ^ 23 ≤ (1 - 1 / 2 ^ 53) ^ 3 * (1 - 1 / 2 ^ 24) := by norm_num
  rw [abs_le]
  constructor
  · have := mul_le_mul_of_nonneg_left k2 hD
    linarith
  · have := mul_le_mul_of_nonneg_left k1 hD
    linarith

/-! ## Facts about the motor and serial code -/

/-- For every duty 0..100 the binary64 computation followed by truncation gives
the exactly computed compare value. -/
theorem pwmCompare_table :
    ∀ d : Fin 101, pwmCompare (d.val : Int) = some (specCompare (d.val : Int)) := by
  decide!

/-- The compare value the code computes for a duty in `[0, 100]` is the exact one. -/
theorem pwmCompare_eq_spec (d : Int) (h0 : 0 ≤ d) (h1 : d ≤ 100) :
    pwmCompare d = some (specCompare d) := by
  have h := pwmCompare_table ⟨d.toNat, by omega⟩
  simpa [Int.toNat_of_nonneg h0] using h

/-- The compare value for a duty in `[0, 100]` is at most 3199. -/
theorem specCompare_le (d : Int) (h0 : 0 ≤ d) (h1 : d ≤ 100) : specCompare d ≤ 3199 := by
  have h : ∀ d : Fin 101, specCompare (d.val : Int) ≤ 3199 := by decide!
  have := h ⟨d.toNat, by omega⟩
  simpa [Int.toNat_of_nonneg h0] using this

/-- Compare value written for duty 100. -/
theorem pwmCompare_100 : pwmCompare 100 = some 0 := by decide!

/-- A string of non-zero bytes is sent whole. -/
theorem Serial_SendString_eq (str : List Nat) (h : ∀ b ∈ str, b ≠ 0 ∧ b < 256) (s : State) :
    Serial_SendString str s = { s with tx := s.tx ++ str } := by
  induction str generalizing s with
  | nil => simp [Serial_SendString]
  | cons c rest ih =>
    have hc := h c (by simp)
    have hr : ∀ b ∈ rest, b ≠ 0 ∧ b < 256 := fun b hb => h b (by simp [hb])
    simp [Serial_SendString, hc.1, ih hr, Serial_SendByte, Nat.mod_eq_of_lt hc.2]

/-- The texts of the protocol table contain no NUL and only byte values. -/
theorem specCommandTable_text :
    ∀ e ∈ specCommandTable, ∀ b ∈ e.2.2.2, b ≠ 0 ∧ b < 256 := by decide

/-- The error text contains no NUL and only byte values. -/
theorem unknownText_clean : ∀ b ∈ cstr "未知指令，请重新发送\n", b ≠ 0 ∧ b < 256 := by decide

/-! ## Claims about the command dispatcher -/

/-- Claim C1: for every row `(cmd, l, r, text)` of the protocol table,
`Serial_ProcessData` with `cmd` in the receive latch succeeds and leaves exactly
the state that `LeftMotor_SetSpeed l` followed by `RightMotor_SetSpeed r`
leaves, except that `text` (which ends in a line feed) and nothing else has
been appended to the transmitted bytes. -/
theorem C1_known_command_applies_preset (cmd : Nat) (l r : Int) (text : List Nat)
    (hmem : (cmd, l, r, text) ∈ specCommandTable) (s : State) (hs : s.Serial_RxData = cmd) :
    ∃ m, (LeftMotor_SetSpeed l s).bind (RightMotor_SetSpeed r) = some m ∧
      Serial_ProcessData s = some { m with tx := s.tx ++ text } ∧
      text.getLast? = some 10 := by
  have htext := specCommandTable_text _ hmem
  have hlf : ∀ e ∈ specCommandTable, e.2.2.2.getLast? = some 10 := by decide
  have hlast := hlf _ hmem
  simp only [specCommandTable, List.mem_cons, Prod.mk.injEq, List.mem_singleton, List.not_mem_nil,
    or_false] at hmem
  rcases hmem with ⟨rfl, rfl, rfl, rfl⟩ | ⟨rfl, rfl, rfl, rfl⟩ | ⟨rfl, rfl, rfl, rfl⟩ |
    ⟨rfl, rfl, rfl, rfl⟩ | ⟨rfl, rfl, rfl, rfl⟩ | ⟨rfl, rfl, rfl, rfl⟩ | ⟨rfl, rfl, rfl, rfl⟩ <;>
  simp [Serial_ProcessData, Serial_GetRxData, hs, Move_Forward, Move_Backward, Turn_Left,
      Turn_Right, CounterClockwise_Rotation, Clockwise_Rotation, Car_Stop, LeftMotor_SetSpeed,
      RightMotor_SetSpeed, pwmCompare_50, pwmCompare_10, pwmCompare_0,
      Serial_SendString_eq _ htext, hlast]

/-- Witness for C1: the byte `F` from the reset state. -/
theorem C1_known_command_applies_preset_witness :
    (70, 50, 50, cstr "前进\n") ∈ specCommandTable ∧
    ({ resetState with Serial_RxData := 70 } : State).Serial_RxData = 70 ∧
    ∃ m, (LeftMotor_SetSpeed 50 { resetState with Serial_RxData := 70 }).bind
          (RightMotor_SetSpeed 50) = some m ∧
      Serial_ProcessData { resetState with Serial_RxData := 70 } =
        some { m with tx := ({ resetState with Serial_RxData := 70 } : State).tx
                ++ cstr "前进\n" } ∧
      (cstr "前进\n").getLast? = some 10 :=
  ⟨by decide, rfl,
    C1_known_command_applies_preset 70 50 50 (cstr "前进\n") (by decide)
      { resetState with Serial_RxData := 70 } rfl⟩

/-- Claim C2: for every byte value outside `F B L R A C S` in the receive latch,
`Serial_ProcessData` changes nothing in the state (compare registers and
direction pins included) except that it appends exactly the error text
"未知指令，请重新发送" followed by a line feed to the transmitted bytes. -/
theorem C2_unknown_command_only_sends_error (s : State)
    (h : s.Serial_RxData ∉ [70, 66, 76, 82, 65, 67, 83]) :
    Serial_ProcessData s = some { s with tx := s.tx ++ cstr "未知指令，请重新发送\n" } ∧
    (cstr "未知指令，请重新发送\n").getLast? = some 10 := by
  refine ⟨?_, by decide⟩
  simp only [List.mem_cons, List.mem_singleton, List.not_mem_nil, or_false, not_or] at h
  obtain ⟨h1, h2, h3, h4, h5, h6, h7⟩ := h
  unfold Serial_ProcessData Serial_GetRxData
  split <;> first | omega | simp [Serial_SendString_eq _ unknownText_clean]

/-- Witness for C2: the byte `X` (88) from the reset state. -/
theorem C2_unknown_command_only_sends_error_witness :
    ({ resetState with Serial_RxData := 88 } : State).Serial_RxData
        ∉ [70, 66, 76, 82, 65, 67, 83] ∧
    Serial_ProcessData { resetState with Serial_RxData := 88 } =
      some { ({ resetState with Serial_RxData := 88 } : State) with
        tx := ({ resetState with Serial_RxData := 88 } : State).tx
          ++ cstr "未知指令，请重新发送\n" } ∧
    (cstr "未知指令，请重新发送\n").getLast? = some 10 :=
  ⟨by decide,
    C2_unknown_command_only_sends_error { resetState with Serial_RxData := 88 } (by decide)⟩

/-! ## Claims about the duty to compare mapping -/

/-- Claim C3: for every duty `d` in `[-100, 100]`, `LeftMotor_SetSpeed d` and
`RightMotor_SetSpeed d` succeed and the compare value `c` they write lies in
`[0, 3199]`; for `d = 100` and for `d = -100` it is `0`, and for negative `d`
(so for `-100`) the reverse pin of the side is set and the forward pin cleared. -/
theorem C3_compare_in_range (d : Int) (hlo : -100 ≤ d) (hhi : d ≤ 100) (s : State) :
    ∃ c : Nat, 0 ≤ c ∧ c ≤ 3199 ∧ (d = 100 ∨ d = -100 → c = 0) ∧
      LeftMotor_SetSpeed d s = some
        { s with comparevalue := c, PWM_0_CC0 := c,
                 L_1 := decide (0 ≤ d), L_0 := decide (d < 0) } ∧
      RightMotor_SetSpeed d s = some
        { s with comparevalue := c, PWM_1_CC0 := c,
                 R_1 := decide (0 ≤ d), R_0 := decide (d < 0) } := by
  rcases le_or_lt 0 d with h | h
  · refine ⟨specCompare d, Nat.zero_le _, specCompare_le d h hhi, ?_, ?_, ?_⟩
    · rintro (rfl | rfl)
      · decide!
      · omega
    · simp [LeftMotor_SetSpeed, h, pwmCompare_eq_spec d h hhi, not_lt.mpr h]
    · simp [RightMotor_SetSpeed, h, pwmCompare_eq_spec d h hhi, not_lt.mpr h]
  · have h0 : 0 ≤ -d := by omega
    have h1 : -d ≤ 100 := by omega
    refine ⟨specCompare (-d), Nat.zero_le _, specCompare_le (-d) h0 h1, ?_, ?_, ?_⟩
    · rintro (rfl | rfl)
      · omega
      · decide!
    · simp [LeftMotor_SetSpeed, not_le.mpr h, h.ne, pwmCompare_eq_spec (-d) h0 h1, h]
    · simp [RightMotor_SetSpeed, not_le.mpr h, h.ne, pwmCompare_eq_spec (-d) h0 h1, h]

/-- Witness for C3: duty `-100` from the reset state. -/
theorem C3_compare_in_range_witness :
    (-100 : Int) ≤ -100 ∧ (-100 : Int) ≤ 100 ∧
    ∃ c : Nat, 0 ≤ c ∧ c ≤ 3199 ∧ ((-100 : Int) = 100 ∨ (-100 : Int) = -100 → c = 0) ∧
      LeftMotor_SetSpeed (-100) resetState = some
        { resetState with comparevalue := c, PWM_0_CC0 := c,
                          L_1 := decide ((0 : Int) ≤ -100), L_0 := decide ((-100 : Int) < 0) } ∧
      RightMotor_SetSpeed (-100) resetState = some
        { resetState with comparevalue := c, PWM_1_CC0 := c,
                          R_1 := decide ((0 : Int) ≤ -100), R_0 := decide ((-100 : Int) < 0) } :=
  ⟨by decide, by decide, C3_compare_in_range (-100) (by decide) (by decide) resetState⟩

/-- Claim C4: for every duty `d` with `1 ≤ d ≤ 100`, `LeftMotor_SetSpeed d` sets
`L_1` and clears `L_0`, `LeftMotor_SetSpeed (-d)` sets `L_0` and clears `L_1`,
and both write the same compare value, `3199 − 3199·d/100` truncated toward
zero; the same holds for `RightMotor_SetSpeed` on `R_1`, `R_0` and the right
timer. -/
theorem C4_direction_and_compare (d : Int) (hlo : 1 ≤ d) (hhi : d ≤ 100) (s : State) :
    LeftMotor_SetSpeed d s = some
      { s with comparevalue := specCompare d, PWM_0_CC0 := specCompare d,
               L_1 := true, L_0 := false } ∧
    LeftMotor_SetSpeed (-d) s = some
      { s with comparevalue := specCompare d, PWM_0_CC0 := specCompare d,
               L_0 := true, L_1 := false } ∧
    RightMotor_SetSpeed d s = some
      { s with comparevalue := specCompare d, PWM_1_CC0 := specCompare d,
               R_1 := true, R_0 := false } ∧
    RightMotor_SetSpeed (-d) s = some
      { s with comparevalue := specCompare d, PWM_1_CC0 := specCompare d,
               R_0 := true, R_1 := false } := by
  have h0 : 0 ≤ d := by omega
  have hn : ¬ (0 ≤ -d) := by omega
  have hn0 : ¬ (d = 0) := by omega
  simp [LeftMotor_SetSpeed, RightMotor_SetSpeed, h0, hn, hn0, pwmCompare_eq_spec d h0 hhi]

/-- Witness for C4: duty `29` from the reset state. -/
theorem C4_direction_and_compare_witness :
    (1 : Int) ≤ 29 ∧ (29 : Int) ≤ 100 ∧
    (LeftMotor_SetSpeed 29 resetState = some
      { resetState with comparevalue := specCompare 29, PWM_0_CC0 := specCompare 29,
                        L_1 := true, L_0 := false } ∧
    LeftMotor_SetSpeed (-29) resetState = some
      { resetState with comparevalue := specCompare 29, PWM_0_CC0 := specCompare 29,
                        L_0 := true, L_1 := false } ∧
    RightMotor_SetSpeed 29 resetState = some
      { resetState with comparevalue := specCompare 29, PWM_1_CC0 := specCompare 29,
                        R_1 := true, R_0 := false } ∧
    RightMotor_SetSpeed (-29) resetState = some
      { resetState with comparevalue := specCompare 29, PWM_1_CC0 := specCompare 29,
                        R_0 := true, R_1 := false }) :=
  ⟨by decide, by decide, C4_direction_and_compare 29 (by decide) (by decide) resetState⟩

/-- Claim C5 (what the code does): `LeftMotor_SetSpeed 0` takes the `Speed >= 0`
branch, so from every state it writes compare value 3199 to the left timer,
sets `L_1` and clears `L_0`; `RightMotor_SetSpeed 0` does the same on the right
side. The `Speed == 0` branch, which would clear both pins and leave the
compare register alone, is never reached. -/
theorem C5_zero_duty_takes_forward_branch (s : State) :
    LeftMotor_SetSpeed 0 s = some
      { s with comparevalue := 3199, PWM_0_CC0 := 3199, L_1 := true, L_0 := false } ∧
    RightMotor_SetSpeed 0 s = some
      { s with comparevalue := 3199, PWM_1_CC0 := 3199, R_1 := true, R_0 := false } := by
  simp [LeftMotor_SetSpeed, RightMotor_SetSpeed, pwmCompare_0]

/-- Claim C6 (what the code does): from every state `Car_Stop` leaves both
compare registers at 3199, the forward pins `L_1` and `R_1` set and the reverse
pins `L_0` and `R_0` cleared; the result does not depend on the earlier duties,
but the forward pins are not cleared. -/
theorem C6_stop_leaves_forward_pins_set (s : State) :
    Car_Stop s = some
      { s with comparevalue := 3199, PWM_0_CC0 := 3199, PWM_1_CC0 := 3199,
               L_1 := true, L_0 := false, R_1 := true, R_0 := false } ∧
    (Car_Stop s).map motorState = some (3199, 3199, false, true, false, true) := by
  simp [Car_Stop, LeftMotor_SetSpeed, RightMotor_SetSpeed, pwmCompare_0, motorState]

/-! ## Claims about the receive latch -/

/-- Claim C7: when the receive handler runs twice, delivering `b1` and then `b2`,
with no read in between, the state is the one a single delivery of `b2` leaves
(so no later read can return `b1`); `Serial_GetRxData` returns `b2`, the first
`Serial_GetRxFlag` returns 1 and the next returns 0, the byte stays `b2` after
the poll, and `Serial_ProcessData` acts as it does on a latch holding `b2`. -/
theorem C7_overrun_keeps_last_byte (s : State) (b1 b2 : Nat) (h1 : b1 < 256) (h2 : b2 < 256) :
    UART0_IRQHandler true b2 (UART0_IRQHandler true b1 s) = UART0_IRQHandler true b2 s ∧
    UART0_IRQHandler true b2 (UART0_IRQHandler true b1 s)
      = { s with Serial_RxData := b2, Serial_RxFlag := 1 } ∧
    Serial_GetRxData (UART0_IRQHandler true b2 (UART0_IRQHandler true b1 s)) = b2 ∧
    (Serial_GetRxFlag (UART0_IRQHandler true b2 (UART0_IRQHandler true b1 s))).1 = 1 ∧
    (Serial_GetRxFlag
      (Serial_GetRxFlag (UART0_IRQHandler true b2 (UART0_IRQHandler true b1 s))).2).1 = 0 ∧
    Serial_GetRxData
      (Serial_GetRxFlag (UART0_IRQHandler true b2 (UART0_IRQHandler true b1 s))).2 = b2 ∧
    Serial_ProcessData (UART0_IRQHandler true b2 (UART0_IRQHandler true b1 s))
      = Serial_ProcessData { s with Serial_RxData := b2, Serial_RxFlag := 1 } := by
  have e1 : b1 % 256 = b1 := Nat.mod_eq_of_lt h1
  have e2 : b2 % 256 = b2 := Nat.mod_eq_of_lt h2
  simp [UART0_IRQHandler, Serial_GetRxData, Serial_GetRxFlag, e2]

/-- Witness for C7: `F` (70) overwritten by `S` (83) from the reset state. -/
theorem C7_overrun_keeps_last_byte_witness :
    (70 : Nat) < 256 ∧ (83 : Nat) < 256 ∧
    (UART0_IRQHandler true 83 (UART0_IRQHandler true 70 resetState)
      = UART0_IRQHandler true 83 resetState ∧
    UART0_IRQHandler true 83 (UART0_IRQHandler true 70 resetState)
      = { resetState with Serial_RxData := 83, Serial_RxFlag := 1 } ∧
    Serial_GetRxData (UART0_IRQHandler true 83 (UART0_IRQHandler true 70 resetState)) = 83 ∧
    (Serial_GetRxFlag (UART0_IRQHandler true 83 (UART0_IRQHandler true 70 resetState))).1 = 1 ∧
    (Serial_GetRxFlag
      (Serial_GetRxFlag (UART0_IRQHandler true 83 (UART0_IRQHandler true 70 resetState))).2).1
        = 0 ∧
    Serial_GetRxData
      (Serial_GetRxFlag (UART0_IRQHandler true 83 (UART0_IRQHandler true 70 resetState))).2
        = 83 ∧
    Serial_ProcessData (UART0_IRQHandler true 83 (UART0_IRQHandler true 70 resetState))
      = Serial_ProcessData { resetState with Serial_RxData := 83, Serial_RxFlag := 1 }) :=
  ⟨by decide, by decide, C7_overrun_keeps_last_byte resetState 70 83 (by decide) (by decide)⟩

/-- Claim C8: `Serial_GetRxFlag` returns 1 exactly when the flag was set and 0
exactly when it was not; it always leaves the flag clear and everything else,
the stored byte included, unchanged. After one reception the first poll
returns 1 and every later poll returns 0, until the handler runs again, after
which the next poll returns 1. -/
theorem C8_poll_is_read_and_clear (s : State) :
    ((Serial_GetRxFlag s).1 = 1 ↔ s.Serial_RxFlag ≠ 0) ∧
    ((Serial_GetRxFlag s).1 = 0 ↔ s.Serial_RxFlag = 0) ∧
    (Serial_GetRxFlag s).2 = { s with Serial_RxFlag := 0 } ∧
    (Serial_GetRxFlag s).2.Serial_RxFlag = 0 ∧
    (Serial_GetRxFlag s).2.Serial_RxData = s.Serial_RxData ∧
    (∀ b : Nat, (Serial_GetRxFlag (UART0_IRQHandler true b s)).1 = 1 ∧
      (∀ n : Nat, (Serial_GetRxFlag ((fun t => (Serial_GetRxFlag t).2)^[n + 1]
          (UART0_IRQHandler true b s))).1 = 0) ∧
      (∀ (n : Nat) (c : Nat), (Serial_GetRxFlag (UART0_IRQHandler true c
          ((fun t => (Serial_GetRxFlag t).2)^[n + 1] (UART0_IRQHandler true b s)))).1 = 1)) := by
  have hclear : ∀ t : State, (Serial_GetRxFlag t).2.Serial_RxFlag = 0 := by
    intro t
    by_cases h : t.Serial_RxFlag = 0 <;> simp [Serial_GetRxFlag, h]
  have hzero : ∀ t : State, t.Serial_RxFlag = 0 → (Serial_GetRxFlag t).1 = 0 := by
    intro t h
    simp [Serial_GetRxFlag, h]
  have hiter : ∀ (n : Nat) (t : State),
      ((fun t => (Serial_GetRxFlag t).2)^[n + 1] t).Serial_RxFlag = 0 := by
    intro n t
    rw [Function.iterate_succ_apply']
    exact hclear _
  refine ⟨?_, ?_, ?_, hclear s, ?_, ?_⟩
  · by_cases h : s.Serial_RxFlag = 0 <;> simp [Serial_GetRxFlag, h]
  · by_cases h : s.Serial_RxFlag = 0 <;> simp [Serial_GetRxFlag, h]
  · by_cases h : s.Serial_RxFlag = 0
    · have : s = { s with Serial_RxFlag := 0 } := by rw [← h]
      simp only [Serial_GetRxFlag, h, ne_eq, not_true_eq_false, if_false]
      exact this
    · simp [Serial_GetRxFlag, h]
  · by_cases h : s.Serial_RxFlag = 0 <;> simp [Serial_GetRxFlag, h]
  · intro b
    refine ⟨by simp [Serial_GetRxFlag, UART0_IRQHandler], fun n => hzero _ (hiter n _), ?_⟩
    intro n c
    simp [Serial_GetRxFlag, UART0_IRQHandler]

/-! ## Claims about the ultrasonic ranging -/

/-- Claim C10 as stated fails: with the echo rising at tick 0 and falling at
tick 1, `Ultrasonic_GetDistance` returns the `float` 9212705 / 2^29, not the
exact value `1 · 0.03432 / 2 = 429 / 25000`. -/
theorem C10_exact_distance_counterexample :
    Ultrasonic_GetDistance
        (Ultrasonic_IRQHandler false 1 (Ultrasonic_IRQHandler true 0
          (Ultrasonic_Trigger resetState))) = 9212705 / 536870912 ∧
    specDistance 0 1 = 429 / 25000 ∧
    Ultrasonic_GetDistance
        (Ultrasonic_IRQHandler false 1 (Ultrasonic_IRQHandler true 0
          (Ultrasonic_Trigger resetState))) ≠ specDistance 0 1 := by
  decide!

/-- Claim C10, amended: after `Ultrasonic_Trigger` the ready flag is clear; a
rising-edge interrupt at tick `a` stores `a` as start timestamp and changes
nothing else; a falling-edge interrupt at tick `b` stores `b` as end timestamp,
sets the ready flag and changes nothing else; `Ultrasonic_GetDistance` then
returns the floating-point value of `(duration * 0.03432) / 2` (binary64
operations, result rounded to `float`) at `duration = (b − a) mod 2^32`, also
when `b < a`, and that value differs from the exact
`((b − a) mod 2^32) · 0.03432 / 2` by at most `2^-23` of it. -/
theorem C10_echo_latch_and_distance (s : State) (a b : Nat) (ha : a < 2 ^ 32)
    (hb : b < 2 ^ 32) :
    (Ultrasonic_Trigger s).g_measure_done = 0 ∧
    (∀ t : State, Ultrasonic_IRQHandler true a t = { t with g_echo_start := a }) ∧
    (∀ t : State, Ultrasonic_IRQHandler false b t
        = { t with g_echo_end := b, g_measure_done := 1 }) ∧
    echoDuration (Ultrasonic_IRQHandler false b (Ultrasonic_IRQHandler true a
        (Ultrasonic_Trigger s))) = (if a ≤ b then b - a else b + 2 ^ 32 - a) ∧
    Ultrasonic_GetDistance (Ultrasonic_IRQHandler false b (Ultrasonic_IRQHandler true a
        (Ultrasonic_Trigger s))) = distanceOf ((((b : Int) - (a : Int)) % 2 ^ 32).toNat) ∧
    |Ultrasonic_GetDistance (Ultrasonic_IRQHandler false b (Ultrasonic_IRQHandler true a
        (Ultrasonic_Trigger s))) - specDistance a b| ≤ specDistance a b / 2 ^ 23 := by
  have ha' : a % 4294967296 = a := Nat.mod_eq_of_lt (by simpa using ha)
  have hb' : b % 4294967296 = b := Nat.mod_eq_of_lt (by simpa using hb)
  have hdur : echoDuration (Ultrasonic_IRQHandler false b (Ultrasonic_IRQHandler true a
      (Ultrasonic_Trigger s))) = (((b : Int) - (a : Int)) % 2 ^ 32).toNat := by
    simp [echoDuration, Ultrasonic_IRQHandler, ha', hb']
  have hcast : (((((b : Int) - (a : Int)) % 2 ^ 32).toNat : Nat) : ℚ)
      = (((((b : Int) - (a : Int)) % 2 ^ 32 : Int)) : ℚ) := by
    have h := Int.toNat_of_nonneg (Int.emod_nonneg ((b : Int) - (a : Int))
      (by norm_num : (2 ^ 32 : Int) ≠ 0))
    exact_mod_cast congrArg (fun z : Int => (z : ℚ)) h
  refine ⟨by simp [Ultrasonic_Trigger], ?_, ?_, ?_, ?_, ?_⟩
  · intro t; simp [Ultrasonic_IRQHandler, ha']
  · intro t; simp [Ultrasonic_IRQHandler, hb']
  · rw [hdur]
    norm_num at ha hb ⊢
    split_ifs <;> omega
  · rw [Ultrasonic_GetDistance, hdur]
  · rw [Ultrasonic_GetDistance, hdur]
    have h := distanceOf_rel_err ((((b : Int) - (a : Int)) % 2 ^ 32).toNat)
    rw [hcast] at h
    exact h

/-- Witness for C10: echo rising at tick 4294967000 and falling, after the
counter wrapped, at tick 704 (duration 1000). -/
theorem C10_echo_latch_and_distance_witness :
    (4294967000 : Nat) < 2 ^ 32 ∧ (704 : Nat) < 2 ^ 32 ∧
    ((Ultrasonic_Trigger resetState).g_measure_done = 0 ∧
    (∀ t : State, Ultrasonic_IRQHandler true 4294967000 t
        = { t with g_echo_start := 4294967000 }) ∧
    (∀ t : State, Ultrasonic_IRQHandler false 704 t
        = { t with g_echo_end := 704, g_measure_done := 1 }) ∧
    echoDuration (Ultrasonic_IRQHandler false 704 (Ultrasonic_IRQHandler true 4294967000
        (Ultrasonic_Trigger resetState)))
      = (if 4294967000 ≤ 704 then 704 - 4294967000 else 704 + 2 ^ 32 - 4294967000) ∧
    Ultrasonic_GetDistance (Ultrasonic_IRQHandler false 704
        (Ultrasonic_IRQHandler true 4294967000 (Ultrasonic_Trigger resetState)))
      = distanceOf ((((704 : Nat) : Int) - ((4294967000 : Nat) : Int)) % 2 ^ 32).toNat ∧
    |Ultrasonic_GetDistance (Ultrasonic_IRQHandler false 704
        (Ultrasonic_IRQHandler true 4294967000 (Ultrasonic_Trigger resetState)))
      - specDistance 4294967000 704| ≤ specDistance 4294967000 704 / 2 ^ 23) :=
  ⟨by decide, by decide,
    C10_echo_latch_and_distance resetState 4294967000 704 (by decide) (by decide)⟩

/-! ## Facts about the motor invariants, the number output and the software UART -/

/-- For a duty in `[0, 100]` the exact compare value is `(319900 − 3199·d) / 100`
in natural-number arithmetic. -/
theorem specCompare_formula (d : Int) (h0 : 0 ≤ d) (h1 : d ≤ 100) :
    specCompare d = (319900 - 3199 * d.toNat) / 100 := by
  have h : ∀ k : Fin 101, specCompare (k.val : Int) = (319900 - 3199 * k.val) / 100 := by
    decide!
  have := h ⟨d.toNat, by omega⟩
  simpa [Int.toNat_of_nonneg h0] using this

/-- The compare value `LeftMotor_SetSpeed` writes for a duty of magnitude at
most 100 is the exact one for that magnitude. -/
theorem LeftMotor_SetSpeed_compare (d : Int) (h : |d| ≤ 100) (s : State) :
    (LeftMotor_SetSpeed d s).map (fun t => t.PWM_0_CC0) = some (specCompare |d|) := by
  rcases le_or_lt 0 d with h0 | h0
  · rw [abs_of_nonneg h0] at h ⊢
    simp [LeftMotor_SetSpeed, h0, pwmCompare_eq_spec d h0 h]
  · rw [abs_of_neg h0] at h ⊢
    simp [LeftMotor_SetSpeed, not_le.mpr h0, h0.ne, pwmCompare_eq_spec (-d) (by omega) h]

/-- The compare value `RightMotor_SetSpeed` writes for a duty of magnitude at
most 100 is the exact one for that magnitude. -/
theorem RightMotor_SetSpeed_compare (d : Int) (h : |d| ≤ 100) (s : State) :
    (RightMotor_SetSpeed d s).map (fun t => t.PWM_1_CC0) = some (specCompare |d|) := by
  rcases le_or_lt 0 d with h0 | h0
  · rw [abs_of_nonneg h0] at h ⊢
    simp [RightMotor_SetSpeed, h0, pwmCompare_eq_spec d h0 h]
  · rw [abs_of_neg h0] at h ⊢
    simp [RightMotor_SetSpeed, not_le.mpr h0, h0.ne, pwmCompare_eq_spec (-d) (by omega) h]

/-- `set_pwm` is the left call followed by the right call, with the LED pin
cleared, for all arguments. -/
theorem set_pwm_eq (l r : Int) (s : State) :
    set_pwm l r s = ((LeftMotor_SetSpeed l s).bind (RightMotor_SetSpeed r)).map
      fun m => { m with LED_1 := false } := by
  unfold set_pwm LeftMotor_SetSpeed
  by_cases hl : l ≥ 0
  · rw [if_pos hl, if_pos hl]
    cases hc : pwmCompare l with
    | none => simp
    | some c =>
      simp only [Option.map_some', Option.some_bind]
      unfold RightMotor_SetSpeed
      by_cases hr : r ≥ 0
      · rw [if_pos hr, if_pos hr]
        cases pwmCompare r <;> simp
      · have hr0 : ¬ r = 0 := by omega
        rw [if_neg hr, if_neg hr, if_neg hr0]
        cases pwmCompare (-r) <;> simp
  · have hl0 : ¬ l = 0 := by omega
    rw [if_neg hl, if_neg hl, if_neg hl0]
    cases hc : pwmCompare (-l) with
    | none => simp
    | some c =>
      simp only [Option.map_some', Option.some_bind]
      unfold RightMotor_SetSpeed
      by_cases hr : r ≥ 0
      · rw [if_pos hr, if_pos hr]
        cases pwmCompare r <;> simp
      · have hr0 : ¬ r = 0 := by omega
        rw [if_neg hr, if_neg hr, if_neg hr0]
        cases pwmCompare (-r) <;> simp


/-- For a duty in `[-100, 100]` `LeftMotor_SetSpeed` returns a state. -/
theorem LeftMotor_SetSpeed_isSome (d : Int) (hlo : -100 ≤ d) (hhi : d ≤ 100) (s : State) :
    ∃ s', LeftMotor_SetSpeed d s = some s' := by
  rcases le_or_lt 0 d with h0 | h0
  · simp [LeftMotor_SetSpeed, h0, pwmCompare_eq_spec d h0 hhi]
  · simp [LeftMotor_SetSpeed, not_le.mpr h0, h0.ne, pwmCompare_eq_spec (-d) (by omega) (by omega)]

/-- For a duty in `[-100, 100]` `RightMotor_SetSpeed` returns a state. -/
theorem RightMotor_SetSpeed_isSome (d : Int) (hlo : -100 ≤ d) (hhi : d ≤ 100) (s : State) :
    ∃ s', RightMotor_SetSpeed d s = some s' := by
  rcases le_or_lt 0 d with h0 | h0
  · simp [RightMotor_SetSpeed, h0, pwmCompare_eq_spec d h0 hhi]
  · simp [RightMotor_SetSpeed, not_le.mpr h0, h0.ne, pwmCompare_eq_spec (-d) (by omega) (by omega)]

/-- Whatever the duty and the starting state, a state returned by
`LeftMotor_SetSpeed` has at most one left pin set and the right pins unchanged. -/
theorem LeftMotor_SetSpeed_pins (d : Int) (s s' : State) (h : LeftMotor_SetSpeed d s = some s') :
    ¬ (s'.L_0 = true ∧ s'.L_1 = true) ∧ s'.R_0 = s.R_0 ∧ s'.R_1 = s.R_1 := by
  unfold LeftMotor_SetSpeed at h
  split_ifs at h with h1 h2
  · cases hc : pwmCompare d with
    | none => simp [hc] at h
    | some c => simp [hc] at h; subst h; simp
  · simp at h; subst h; simp
  · cases hc : pwmCompare (-d) with
    | none => simp [hc] at h
    | some c => simp [hc] at h; subst h; simp

/-- Whatever the duty and the starting state, a state returned by
`RightMotor_SetSpeed` has at most one right pin set and the left pins unchanged. -/
theorem RightMotor_SetSpeed_pins (d : Int) (s s' : State)
    (h : RightMotor_SetSpeed d s = some s') :
    ¬ (s'.R_0 = true ∧ s'.R_1 = true) ∧ s'.L_0 = s.L_0 ∧ s'.L_1 = s.L_1 := by
  unfold RightMotor_SetSpeed at h
  split_ifs at h with h1 h2
  · cases hc : pwmCompare d with
    | none => simp [hc] at h
    | some c => simp [hc] at h; subst h; simp
  · simp at h; subst h; simp
  · cases hc : pwmCompare (-d) with
    | none => simp [hc] at h
    | some c => simp [hc] at h; subst h; simp

/-- A left call followed by a right call, when both return, leaves neither side
with both pins set. -/
theorem pair_pinsExclusive (l r : Int) (s s' : State)
    (h : (LeftMotor_SetSpeed l s).bind (RightMotor_SetSpeed r) = some s') :
    pinsExclusive s' := by
  cases hL : LeftMotor_SetSpeed l s with
  | none => simp [hL] at h
  | some m =>
    rw [hL, Option.some_bind] at h
    have a := LeftMotor_SetSpeed_pins l s m hL
    have b := RightMotor_SetSpeed_pins r m s' h
    refine ⟨?_, b.1⟩
    rw [b.2.1, b.2.2]
    exact a.1

/-- A left call followed by a right call with duties in `[-100, 100]` returns. -/
theorem pair_isSome (l r : Int) (hl : -100 ≤ l ∧ l ≤ 100) (hr : -100 ≤ r ∧ r ≤ 100)
    (s : State) : ∃ s', (LeftMotor_SetSpeed l s).bind (RightMotor_SetSpeed r) = some s' := by
  obtain ⟨m, hm⟩ := LeftMotor_SetSpeed_isSome l hl.1 hl.2 s
  obtain ⟨m', hm'⟩ := RightMotor_SetSpeed_isSome r hr.1 hr.2 m
  exact ⟨m', by rw [hm, Option.some_bind, hm']⟩

/-- Up to exponent 9 `Serial_Pow 10` is the power of ten and stays below `2^32`. -/
theorem Serial_Pow_ten (k : Nat) (hk : k ≤ 9) :
    Serial_Pow 10 k = 10 ^ k ∧ 10 ^ k < 2 ^ 32 ∧ Serial_Pow 10 k ≠ 0 := by
  have h : ∀ j : Fin 10, Serial_Pow 10 j.val = 10 ^ j.val ∧ 10 ^ j.val < 2 ^ 32 ∧
      Serial_Pow 10 j.val ≠ 0 := by decide
  exact h ⟨k, by omega⟩

/-- Invariant of the digit loop: with `n` iterations left at counter `i`, the
loop sends the digits of positions `i .. i + n − 1`. -/
theorem Serial_SendNumber_loop_eq (Number Length : Nat) (hL : Length ≤ 10) (n i : Nat)
    (hni : i + n = Length) (s : State) :
    Serial_SendNumber_loop Number Length n i s = some
      { s with
        tx := s.tx ++ (List.range' i n).map
          (fun j => 48 + (Number / 10 ^ (Length - 1 - j)) % 10) } := by
  induction n generalizing i s with
  | zero => simp [Serial_SendNumber_loop]
  | succ n ih =>
    have hk : Length - i - 1 ≤ 9 := by omega
    have hmod : (Length - i - 1) % 2 ^ 32 = Length - i - 1 :=
      Nat.mod_eq_of_lt (by norm_num; omega)
    have hp := Serial_Pow_ten (Length - i - 1) hk
    have hd : (Number / 10 ^ (Length - i - 1) % 10 + 48) % 256
        = 48 + Number / 10 ^ (Length - 1 - i) % 10 := by
      have : Length - i - 1 = Length - 1 - i := by omega
      rw [this]
      omega
    unfold Serial_SendNumber_loop
    rw [hmod, if_neg hp.2.2, hp.1, ih (i + 1) (by omega)]
    simp [Serial_SendByte, hd, List.range'_succ]

/-- The C test `data & (1 << i)` is the bit test, for bytes and `i < 8`. -/
theorem land_shift_eq_testBit :
    ∀ (b : Fin 256) (i : Fin 8), decide (b.val &&& (1 <<< i.val) ≠ 0) = b.val.testBit i.val := by
  decide!

/-- The start-bit wait ends at the falling edge `t0` when the line is high before
it, low at it, and the poll budget covers the distance. -/
theorem waitStartBit_edge (line : Nat → Bool) (t0 : Nat) (hhigh : ∀ t, t < t0 → line t = true)
    (hlow : line t0 = false) (fuel : Nat) (s : State) (hs : s.elapsed_us ≤ t0)
    (hf : t0 - s.elapsed_us < fuel) :
    waitStartBit line fuel s = some { s with elapsed_us := t0 } := by
  induction fuel generalizing s with
  | zero => omega
  | succ fuel ih =>
    unfold waitStartBit
    rcases Nat.lt_or_ge s.elapsed_us t0 with h | h
    · rw [if_pos (hhigh _ h), ih _ (by simpa using h) (by simp; omega)]
    · have e : s.elapsed_us = t0 := by omega
      rw [e, hlow]
      simp [← e]

/-- The accumulated value depends only on the samples the loop takes. -/
theorem rxValue_congr (f g : Nat → Bool) (n i data : Nat)
    (h : ∀ j, i ≤ j → j < i + n → f j = g j) : rxValue f n i data = rxValue g n i data := by
  induction n generalizing i data with
  | zero => simp [rxValue]
  | succ n ih =>
    rw [rxValue, rxValue, h i le_rfl (by omega)]
    exact ih (i + 1) _ (fun j h1 h2 => h j (by omega) (by omega))

/-- The receive loop returns the value accumulated from its samples, taken one
bit period apart, and advances the clock by one period per sample. -/
theorem swUartReceiveBits_eq (baud : Nat) (line : Nat → Bool) (n i data : Nat) (s : State) :
    swUartReceiveBits baud line n i data s =
      (rxValue (fun j => line (s.elapsed_us + (j - i) * (1000000 / baud))) n i data,
        { s with elapsed_us := s.elapsed_us + n * (1000000 / baud) }) := by
  induction n generalizing i data s with
  | zero => simp [swUartReceiveBits, rxValue]
  | succ n ih =>
    rw [swUartReceiveBits, ih, rxValue]
    generalize 1000000 / baud = T
    have e1 : s.elapsed_us + (i - i) * T = s.elapsed_us := by simp
    have e2 : s.elapsed_us + T + n * T = s.elapsed_us + (n + 1) * T := by ring
    simp only [swUartDelay, e1, e2]
    congr 1
    apply rxValue_congr
    intro j h1 h2
    have : s.elapsed_us + T + (j - (i + 1)) * T = s.elapsed_us + (j - i) * T := by
      obtain ⟨k, rfl⟩ : ∃ k, j = i + 1 + k := ⟨j - (i + 1), by omega⟩
      have a : i + 1 + k - (i + 1) = k := by omega
      have b : i + 1 + k - i = k + 1 := by omega
      rw [a, b]; ring
    rw [this]

/-- In a frame of period `T ≥ 1` starting at `t0`, the sample taken `T / 2` after
the falling edge and `j` periods later lies in period `j`: the start bit for
`j = 0`, data bit `j − 1` for `1 ≤ j ≤ 8`. -/
theorem specFrame_sample (t0 T b j : Nat) (hT : 1 ≤ T) :
    specFrame t0 T b (t0 + T / 2 + j * T)
      = (if j = 0 then false else if j ≤ 8 then b.testBit (j - 1) else true) := by
  have hdiv : (t0 + T / 2 + j * T - t0) / T = j := by
    have : t0 + T / 2 + j * T - t0 = T / 2 + j * T := by omega
    rw [this, Nat.add_mul_div_right _ _ (by omega : 0 < T),
      Nat.div_eq_of_lt (Nat.div_lt_self (by omega) (by norm_num)), Nat.zero_add]
  unfold specFrame
  rw [if_neg (by omega), hdiv]

/-- Value accumulated from a frame sampled one period early: the byte shifted
left by one bit. -/
theorem rxValue_shifted :
    ∀ b : Fin 256,
      rxValue (fun j => if j = 0 then false else if j ≤ 8 then b.val.testBit (j - 1) else true)
        8 0 0 = (2 * b.val) % 256 := by
  decide!

/-- A write made `k ≤ 9` whole periods after the falling edge falls in period `k`
of the frame. -/
theorem specFrame_at_period (t0 T b k : Nat) (hT : 1 ≤ T) :
    specFrame t0 T b (t0 + k * T)
      = (if k = 0 then false else if k ≤ 8 then b.testBit (k - 1) else true) := by
  have hdiv : (t0 + k * T - t0) / T = k := by
    rw [Nat.add_sub_cancel_left, Nat.mul_div_cancel _ (by omega : 0 < T)]
  unfold specFrame
  rw [if_neg (by omega), hdiv]

/-- Every level `swUartSendByte` writes is the level of the specified frame at
the time of the write. -/
theorem sendLog_matches_specFrame (T b t0 : Nat) (hT : 1 ≤ T) :
    ∀ p ∈ List.zip ((List.range 10).map fun k => t0 + k * T) (specLevels b),
      specFrame t0 T b p.1 = p.2 := by
  intro p hp
  simp only [specLevels, List.range, List.range.loop, List.map, List.zip_cons_cons,
    List.cons_append, List.nil_append, List.zip_nil_right, List.mem_cons, List.mem_singleton,
    List.not_mem_nil, or_false] at hp
  have h0 := specFrame_at_period t0 T b 0 hT
  have h1 := specFrame_at_period t0 T b 1 hT
  rcases hp with rfl | rfl | rfl | rfl | rfl | rfl | rfl | rfl | rfl | rfl <;>
    first
    | simpa using h0
    | simpa using h1
    | simp [specFrame_at_period _ _ _ _ hT]

/-- The sender writes ten levels one bit period apart, the start bit, the eight
data bits least significant first and the stop bit, and returns one period
after the last write. -/
theorem swUartSendByte_eq (baud b : Nat) (hb : b < 256) (s : State) :
    swUartSendByte baud b s =
      { s with
        PA18 := true
        elapsed_us := s.elapsed_us + 10 * (1000000 / baud)
        PA18_log := s.PA18_log ++
          List.zip ((List.range 10).map fun k => s.elapsed_us + k * (1000000 / baud))
            (specLevels b) } ∧
    (specLevels b).length = 10 := by
  refine ⟨?_, by simp [specLevels]⟩
  have hbit : ∀ i, i < 8 → decide (b &&& (1 <<< i) ≠ 0) = b.testBit i := fun i hi =>
    land_shift_eq_testBit ⟨b, hb⟩ ⟨i, hi⟩
  have h0 := hbit 0 (by norm_num)
  have h1 := hbit 1 (by norm_num)
  have h2 := hbit 2 (by norm_num)
  have h3 := hbit 3 (by norm_num)
  have h4 := hbit 4 (by norm_num)
  have h5 := hbit 5 (by norm_num)
  have h6 := hbit 6 (by norm_num)
  have h7 := hbit 7 (by norm_num)
  simp only [swUartSendByte, SW_UART_DATA_BITS, swUartSendBits, Nat.mod_eq_of_lt hb, h0, h1, h2,
    h3, h4, h5, h6, h7]
  simp [swUartDelay, writePA18, specLevels, List.range, List.range.loop]
  generalize 1000000 / baud = T
  omega

/-! ## Claims about monotonicity, the software UART, the motor driver and numbers -/

/-- Claim C11: the distance `Ultrasonic_GetDistance` computes is monotone
non-decreasing in the 32-bit duration `g_echo_end − g_echo_start`: a state with
the smaller or equal duration gives the smaller or equal distance; and the
distance for duration 0 is 0. -/
theorem C11_distance_monotone (s1 s2 : State) (h : echoDuration s1 ≤ echoDuration s2) :
    Ultrasonic_GetDistance s1 ≤ Ultrasonic_GetDistance s2 ∧
    (echoDuration s1 = 0 → Ultrasonic_GetDistance s1 = 0) ∧
    echoDuration s2 < 2 ^ 32 ∧ distanceOf 0 = 0 := by
  refine ⟨distanceOf_mono _ _ h, ?_, ?_, distanceOf_zero⟩
  · intro h0
    rw [Ultrasonic_GetDistance, h0, distanceOf_zero]
  · have h1 := echoDuration_eq s2
    have h2 : ((s2.g_echo_end : Int) - (s2.g_echo_start : Int)) % 2 ^ 32 < 2 ^ 32 :=
      Int.emod_lt_of_pos _ (by norm_num)
    have : ((echoDuration s2 : Nat) : Int) < 2 ^ 32 := by rw [h1]; exact h2
    exact_mod_cast this

/-- Witness for C11: duration 1000 (across a counter wrap) against duration 1749. -/
theorem C11_distance_monotone_witness :
    echoDuration { resetState with g_echo_start := 4294967000, g_echo_end := 704 }
      ≤ echoDuration { resetState with g_echo_start := 100, g_echo_end := 1849 } ∧
    (Ultrasonic_GetDistance { resetState with g_echo_start := 4294967000, g_echo_end := 704 }
      ≤ Ultrasonic_GetDistance { resetState with g_echo_start := 100, g_echo_end := 1849 } ∧
    (echoDuration { resetState with g_echo_start := 4294967000, g_echo_end := 704 } = 0 →
      Ultrasonic_GetDistance { resetState with g_echo_start := 4294967000, g_echo_end := 704 }
        = 0) ∧
    echoDuration { resetState with g_echo_start := 100, g_echo_end := 1849 } < 2 ^ 32 ∧
    distanceOf 0 = 0) :=
  ⟨by decide, C11_distance_monotone _ _ (by decide)⟩

/-- Claim C12: for every byte `b`, `swUartSendByte b` writes exactly ten levels to
the transmit pin, one bit period `T = 1000000 / baud` microseconds apart and
starting at once: low (start bit), then bit 0, bit 1, ..., bit 7 of `b` (high for
a 1 bit, low for a 0 bit), then high (stop bit); it returns one period after
the last write, so every level is held for one bit period. -/
theorem C12_send_frame_levels (baud b : Nat) (hb : b < 256) (s : State) :
    swUartSendByte baud b s =
      { s with
        PA18 := true
        elapsed_us := s.elapsed_us + 10 * (1000000 / baud)
        PA18_log := s.PA18_log ++
          List.zip ((List.range 10).map fun k => s.elapsed_us + k * (1000000 / baud))
            (specLevels b) } ∧
    (specLevels b).length = 10 :=
  swUartSendByte_eq baud b hb s

/-- Witness for C12: the byte `A` (65) at 9600 baud from the reset state. -/
theorem C12_send_frame_levels_witness :
    (65 : Nat) < 256 ∧
    (swUartSendByte 9600 65 resetState =
      { resetState with
        PA18 := true
        elapsed_us := resetState.elapsed_us + 10 * (1000000 / 9600)
        PA18_log := resetState.PA18_log ++
          List.zip ((List.range 10).map fun k => resetState.elapsed_us + k * (1000000 / 9600))
            (specLevels 65) } ∧
    (specLevels 65).length = 10) :=
  ⟨by decide, C12_send_frame_levels 9600 65 (by decide) resetState⟩

/-- Claim C13 (what the code does): on the frame that `swUartSendByte b` produces
with bit period `T ≥ 1`, `swUartReceiveByte`, started on the idle line at or
before the falling edge `t0`, takes its first sample `T / 2` after the edge, in
the middle of the start bit, and the following seven samples in data bits 0 to
6. It returns `(2 · b) mod 256`, which differs from `b` unless `b = 0`, at time
`t0 + T / 2 + 9 · T`. The levels `swUartSendByte` writes are those of the frame. -/
theorem C13_receive_returns_shifted_byte (baud b t0 fuel : Nat) (hb : b < 256)
    (hT : 1 ≤ 1000000 / baud) (s : State) (hs : s.elapsed_us ≤ t0)
    (hfuel : t0 - s.elapsed_us < fuel) :
    swUartReceiveByte baud (specFrame t0 (1000000 / baud) b) fuel s =
      some ((2 * b) % 256,
        { s with elapsed_us := t0 + 1000000 / baud / 2 + 9 * (1000000 / baud) }) ∧
    (b ≠ 0 → (2 * b) % 256 ≠ b) ∧
    (∀ u : State, u.elapsed_us = t0 →
      ∀ p ∈ ((swUartSendByte baud b u).PA18_log.drop u.PA18_log.length),
        specFrame t0 (1000000 / baud) b p.1 = p.2) := by
  refine ⟨?_, by omega, ?_⟩
  · have hhigh : ∀ t, t < t0 → specFrame t0 (1000000 / baud) b t = true := by
      intro t ht
      simp [specFrame, ht]
    have hlow : specFrame t0 (1000000 / baud) b t0 = false := by
      simp [specFrame]
    unfold swUartReceiveByte
    rw [waitStartBit_edge _ t0 hhigh hlow fuel s hs hfuel]
    simp only [Option.map_some', SW_UART_DATA_BITS, swUartReceiveBits_eq]
    have hval : rxValue (fun j => specFrame t0 (1000000 / baud) b
        ((swUartDelay (1000000 / baud / 2) { s with elapsed_us := t0 }).elapsed_us
          + (j - 0) * (1000000 / baud))) 8 0 0 = (2 * b) % 256 := by
      rw [← rxValue_shifted ⟨b, hb⟩]
      apply rxValue_congr
      intro j _ _
      simp only [swUartDelay, Nat.sub_zero]
      exact specFrame_sample t0 _ b j hT
    rw [hval]
    simp [swUartDelay]
    ring
  · intro u hu p hp
    rw [(swUartSendByte_eq baud b hb u).1] at hp
    simp only [List.drop_left] at hp
    rw [hu] at hp
    exact sendLog_matches_specFrame _ b t0 hT p hp

/-- Witness for C13: the byte 1 at 9600 baud (`T = 104`), falling edge at clock
50, receiver started at reset: the function returns 2. -/
theorem C13_receive_returns_shifted_byte_witness :
    (1 : Nat) < 256 ∧ 1 ≤ 1000000 / 9600 ∧ resetState.elapsed_us ≤ 50 ∧
    50 - resetState.elapsed_us < 100 ∧
    (swUartReceiveByte 9600 (specFrame 50 (1000000 / 9600) 1) 100 resetState =
      some ((2 * 1) % 256,
        { resetState with elapsed_us := 50 + 1000000 / 9600 / 2 + 9 * (1000000 / 9600) }) ∧
    ((1 : Nat) ≠ 0 → (2 * 1) % 256 ≠ 1) ∧
    (∀ u : State, u.elapsed_us = 50 →
      ∀ p ∈ ((swUartSendByte 9600 1 u).PA18_log.drop u.PA18_log.length),
        specFrame 50 (1000000 / 9600) 1 p.1 = p.2)) :=
  ⟨by decide, by decide, by decide, by decide,
    C13_receive_returns_shifted_byte 9600 1 50 100 (by decide) (by decide) resetState
      (by decide) (by decide)⟩

/-- Claim C14: for duties `d1`, `d2` with `|d1| ≤ |d2| ≤ 100`, the compare value
`c2` that `LeftMotor_SetSpeed` and `RightMotor_SetSpeed` write for `d2` is at
most the value `c1` they write for `d1`, and strictly less when `|d1| < |d2|`. -/
theorem C14_compare_decreases_with_duty (d1 d2 : Int) (h12 : |d1| ≤ |d2|) (h2 : |d2| ≤ 100) (s : State) :
    ∃ c1 c2 : Nat,
      (LeftMotor_SetSpeed d1 s).map (fun t => t.PWM_0_CC0) = some c1 ∧
      (LeftMotor_SetSpeed d2 s).map (fun t => t.PWM_0_CC0) = some c2 ∧
      (RightMotor_SetSpeed d1 s).map (fun t => t.PWM_1_CC0) = some c1 ∧
      (RightMotor_SetSpeed d2 s).map (fun t => t.PWM_1_CC0) = some c2 ∧
      c2 ≤ c1 ∧ (|d1| < |d2| → c2 < c1) := by
  have h1 : |d1| ≤ 100 := le_trans h12 h2
  refine ⟨specCompare |d1|, specCompare |d2|, LeftMotor_SetSpeed_compare d1 h1 s,
    LeftMotor_SetSpeed_compare d2 h2 s, RightMotor_SetSpeed_compare d1 h1 s,
    RightMotor_SetSpeed_compare d2 h2 s, ?_, ?_⟩
  · rw [specCompare_formula _ (abs_nonneg d1) h1, specCompare_formula _ (abs_nonneg d2) h2]
    have := abs_nonneg d1
    omega
  · intro hlt
    rw [specCompare_formula _ (abs_nonneg d1) h1, specCompare_formula _ (abs_nonneg d2) h2]
    have := abs_nonneg d1
    omega

/-- Witness for C14: duties `-30` and `50` from the reset state. -/
theorem C14_compare_decreases_with_duty_witness :
    |(-30 : Int)| ≤ |(50 : Int)| ∧ |(50 : Int)| ≤ 100 ∧
    ∃ c1 c2 : Nat,
      (LeftMotor_SetSpeed (-30) resetState).map (fun t => t.PWM_0_CC0) = some c1 ∧
      (LeftMotor_SetSpeed 50 resetState).map (fun t => t.PWM_0_CC0) = some c2 ∧
      (RightMotor_SetSpeed (-30) resetState).map (fun t => t.PWM_1_CC0) = some c1 ∧
      (RightMotor_SetSpeed 50 resetState).map (fun t => t.PWM_1_CC0) = some c2 ∧
      c2 ≤ c1 ∧ (|(-30 : Int)| < |(50 : Int)| → c2 < c1) :=
  ⟨by decide, by decide,
    C14_compare_decreases_with_duty (-30) 50 (by decide) (by decide) resetState⟩

/-- Claim C15: from every state `motor_off` clears the standby pin and the four
direction pins and changes nothing else, so both compare registers keep their
values; `motor_on` sets the standby pin and changes nothing else, so no
direction pin and no compare register changes. -/
theorem C15_motor_on_off_frame (s : State) :
    motor_off s = { s with STBY := false, L_0 := false, L_1 := false, R_0 := false,
                           R_1 := false } ∧
    (motor_off s).STBY = false ∧
    motorState (motor_off s) = (s.PWM_0_CC0, s.PWM_1_CC0, false, false, false, false) ∧
    motor_on s = { s with STBY := true } ∧
    (motor_on s).STBY = true ∧
    motorState (motor_on s) = motorState s := by
  simp [motor_off, motor_on, motorState]

/-- Claim C16: for duties `l`, `r` in `[-100, 100]` and every starting state,
`LeftMotor_SetSpeed l` followed by `RightMotor_SetSpeed r` returns a state `m`,
and `set_pwm l r` returns `m` with the LED pin cleared: compare registers and
direction pins are the same. -/
theorem C16_set_pwm_matches_setspeed (l r : Int) (hl : -100 ≤ l ∧ l ≤ 100) (hr : -100 ≤ r ∧ r ≤ 100) (s : State) :
    ∃ m, (LeftMotor_SetSpeed l s).bind (RightMotor_SetSpeed r) = some m ∧
      set_pwm l r s = some { m with LED_1 := false } ∧
      (set_pwm l r s).map motorState = some (motorState m) := by
  obtain ⟨m, hm⟩ := pair_isSome l r hl hr s
  refine ⟨m, hm, ?_, ?_⟩
  · rw [set_pwm_eq, hm, Option.map_some']
  · rw [set_pwm_eq, hm]
    simp [motorState]

/-- Witness for C16: duties `0` and `-100` from the reset state. -/
theorem C16_set_pwm_matches_setspeed_witness :
    ((-100 : Int) ≤ 0 ∧ (0 : Int) ≤ 100) ∧ ((-100 : Int) ≤ -100 ∧ (-100 : Int) ≤ 100) ∧
    ∃ m, (LeftMotor_SetSpeed 0 resetState).bind (RightMotor_SetSpeed (-100)) = some m ∧
      set_pwm 0 (-100) resetState = some { m with LED_1 := false } ∧
      (set_pwm 0 (-100) resetState).map motorState = some (motorState m) :=
  ⟨by decide, by decide,
    C16_set_pwm_matches_setspeed 0 (-100) (by decide) (by decide) resetState⟩

/-- Where C defines the compare value, the target computes that value. -/
theorem pwmCompare_exec_eq (ub : ℚ → Nat) (oil : Int) (c : Nat) (h : pwmCompare oil = some c) :
    pwmCompare_exec ub oil = c := by
  unfold pwmCompare at h
  unfold pwmCompare_exec toUInt32_exec
  rw [h]

/-- Where `LeftMotor_SetSpeed` has a result, the target version gives that state. -/
theorem LeftMotor_SetSpeed_exec_eq (ub : ℚ → Nat) (d : Int) (s s' : State)
    (h : LeftMotor_SetSpeed d s = some s') : LeftMotor_SetSpeed_exec ub d s = s' := by
  unfold LeftMotor_SetSpeed at h
  unfold LeftMotor_SetSpeed_exec
  split_ifs at h ⊢ with h1 h2
  · cases hc : pwmCompare d with
    | none => simp [hc] at h
    | some c => simp [hc] at h; rw [pwmCompare_exec_eq ub d c hc]; exact h
  · simpa using h
  · cases hc : pwmCompare (-d) with
    | none => simp [hc] at h
    | some c => simp [hc] at h; rw [pwmCompare_exec_eq ub (-d) c hc]; exact h

/-- Where `RightMotor_SetSpeed` has a result, the target version gives that state. -/
theorem RightMotor_SetSpeed_exec_eq (ub : ℚ → Nat) (d : Int) (s s' : State)
    (h : RightMotor_SetSpeed d s = some s') : RightMotor_SetSpeed_exec ub d s = s' := by
  unfold RightMotor_SetSpeed at h
  unfold RightMotor_SetSpeed_exec
  split_ifs at h ⊢ with h1 h2
  · cases hc : pwmCompare d with
    | none => simp [hc] at h
    | some c => simp [hc] at h; rw [pwmCompare_exec_eq ub d c hc]; exact h
  · simpa using h
  · cases hc : pwmCompare (-d) with
    | none => simp [hc] at h
    | some c => simp [hc] at h; rw [pwmCompare_exec_eq ub (-d) c hc]; exact h

/-- On a target `set_pwm` is the left call followed by the right call, with the
LED pin cleared. -/
theorem set_pwm_exec_eq_pair (ub : ℚ → Nat) (l r : Int) (s : State) :
    set_pwm_exec ub l r s =
      { RightMotor_SetSpeed_exec ub r (LeftMotor_SetSpeed_exec ub l s) with LED_1 := false } := by
  unfold set_pwm_exec LeftMotor_SetSpeed_exec RightMotor_SetSpeed_exec
  by_cases hl : l ≥ 0 <;> by_cases hr : r ≥ 0
  · simp [hl, hr]
  · have : ¬ r = 0 := by omega
    simp [hl, hr, this]
  · have : ¬ l = 0 := by omega
    simp [hl, hr, this]
  · have : ¬ l = 0 := by omega
    have : ¬ r = 0 := by omega
    simp [hl, hr, *]

/-- Where `set_pwm` has a result, the target version gives that state. -/
theorem set_pwm_exec_eq (ub : ℚ → Nat) (l r : Int) (s s' : State)
    (h : set_pwm l r s = some s') : set_pwm_exec ub l r s = s' := by
  rw [set_pwm_eq] at h
  cases hL : LeftMotor_SetSpeed l s with
  | none => simp [hL] at h
  | some m =>
    rw [hL, Option.some_bind] at h
    cases hR : RightMotor_SetSpeed r m with
    | none => simp [hR] at h
    | some m' =>
      rw [hR] at h
      simp only [Option.map_some', Option.some.injEq] at h
      rw [set_pwm_exec_eq_pair, LeftMotor_SetSpeed_exec_eq ub l s m hL,
        RightMotor_SetSpeed_exec_eq ub r m m' hR]
      exact h

/-- Pins after the target's left call, for every duty and state. -/
theorem LeftMotor_SetSpeed_exec_pins (ub : ℚ → Nat) (d : Int) (s : State) :
    (LeftMotor_SetSpeed_exec ub d s).L_1 = decide (0 ≤ d) ∧
    (LeftMotor_SetSpeed_exec ub d s).L_0 = decide (d < 0) ∧
    (LeftMotor_SetSpeed_exec ub d s).R_0 = s.R_0 ∧
    (LeftMotor_SetSpeed_exec ub d s).R_1 = s.R_1 := by
  unfold LeftMotor_SetSpeed_exec
  by_cases h : d ≥ 0
  · simp [h, not_lt.mpr h]
  · have h0 : ¬ d = 0 := by omega
    have h1 : d < 0 := by omega
    simp [h, h0, h1]

/-- Pins after the target's right call, for every duty and state. -/
theorem RightMotor_SetSpeed_exec_pins (ub : ℚ → Nat) (d : Int) (s : State) :
    (RightMotor_SetSpeed_exec ub d s).R_1 = decide (0 ≤ d) ∧
    (RightMotor_SetSpeed_exec ub d s).R_0 = decide (d < 0) ∧
    (RightMotor_SetSpeed_exec ub d s).L_0 = s.L_0 ∧
    (RightMotor_SetSpeed_exec ub d s).L_1 = s.L_1 := by
  unfold RightMotor_SetSpeed_exec
  by_cases h : d ≥ 0
  · simp [h, not_lt.mpr h]
  · have h0 : ¬ d = 0 := by omega
    have h1 : d < 0 := by omega
    simp [h, h0, h1]

/-- A pair of one pin equal to `decide (0 ≤ d)` and the other to `decide (d < 0)`
is never both set. -/
theorem not_both_of_sign (d : Int) (x y : Bool) (hx : x = decide (0 ≤ d))
    (hy : y = decide (d < 0)) : ¬ (y = true ∧ x = true) := by
  subst hx hy
  simp only [decide_eq_true_eq]
  omega

/-- Claim C17: from a state in which neither side has both direction pins set,
`LeftMotor_SetSpeed`, `RightMotor_SetSpeed` and `set_pwm`, called with any
argument, leave a state with the same property. This holds on a target for
every argument, also beyond `[-100, 100]`, where the conversion to `uint32_t`
is undefined in C and yields some value `ub q`: the pin writes do not depend on
it. After `LeftMotor_SetSpeed d` the forward pin `L_1` is set exactly for
`0 ≤ d` and the reverse pin `L_0` exactly for `d < 0`, whatever the starting
state, so they are never both set; likewise on the right. The target versions
give the state of the functions of the C semantics wherever those return, which
they do for arguments in `[-100, 100]`; `motor_on`, `motor_off` and the seven
presets return a state with the property. -/
theorem C17_direction_pins_exclusive (ub : ℚ → Nat) (s : State) (h : pinsExclusive s) :
    (∀ d : Int, pinsExclusive (LeftMotor_SetSpeed_exec ub d s)) ∧
    (∀ d : Int, pinsExclusive (RightMotor_SetSpeed_exec ub d s)) ∧
    (∀ l r : Int, pinsExclusive (set_pwm_exec ub l r s)) ∧
    (∀ (d : Int) (t : State),
      (LeftMotor_SetSpeed_exec ub d t).L_1 = decide (0 ≤ d) ∧
      (LeftMotor_SetSpeed_exec ub d t).L_0 = decide (d < 0) ∧
      ¬ ((LeftMotor_SetSpeed_exec ub d t).L_0 = true ∧
          (LeftMotor_SetSpeed_exec ub d t).L_1 = true)) ∧
    (∀ (d : Int) (t : State),
      (RightMotor_SetSpeed_exec ub d t).R_1 = decide (0 ≤ d) ∧
      (RightMotor_SetSpeed_exec ub d t).R_0 = decide (d < 0) ∧
      ¬ ((RightMotor_SetSpeed_exec ub d t).R_0 = true ∧
          (RightMotor_SetSpeed_exec ub d t).R_1 = true)) ∧
    (∀ (d : Int) (s' : State), LeftMotor_SetSpeed d s = some s' →
      LeftMotor_SetSpeed_exec ub d s = s') ∧
    (∀ (d : Int) (s' : State), RightMotor_SetSpeed d s = some s' →
      RightMotor_SetSpeed_exec ub d s = s') ∧
    (∀ (l r : Int) (s' : State), set_pwm l r s = some s' → set_pwm_exec ub l r s = s') ∧
    (∀ (d : Int) (s' : State), LeftMotor_SetSpeed d s = some s' → pinsExclusive s') ∧
    (∀ (d : Int) (s' : State), RightMotor_SetSpeed d s = some s' → pinsExclusive s') ∧
    (∀ (l r : Int) (s' : State), set_pwm l r s = some s' → pinsExclusive s') ∧
    (∀ d : Int, -100 ≤ d → d ≤ 100 →
      (∃ s', LeftMotor_SetSpeed d s = some s') ∧ (∃ s', RightMotor_SetSpeed d s = some s')) ∧
    (∀ l r : Int, -100 ≤ l ∧ l ≤ 100 → -100 ≤ r ∧ r ≤ 100 → ∃ s', set_pwm l r s = some s') ∧
    pinsExclusive (motor_on s) ∧ pinsExclusive (motor_off s) ∧
    (∀ f ∈ [Move_Forward, Move_Backward, Car_Stop, Turn_Left, Turn_Right, Clockwise_Rotation,
        CounterClockwise_Rotation], ∃ s', f s = some s' ∧ pinsExclusive s') ∧
    (∀ (d : Int) (t t' : State), LeftMotor_SetSpeed d t = some t' →
      ¬ (t'.L_0 = true ∧ t'.L_1 = true)) ∧
    (∀ (d : Int) (t t' : State), RightMotor_SetSpeed d t = some t' →
      ¬ (t'.R_0 = true ∧ t'.R_1 = true)) := by
  have hL : ∀ (d : Int) (t : State),
      ¬ ((LeftMotor_SetSpeed_exec ub d t).L_0 = true ∧
          (LeftMotor_SetSpeed_exec ub d t).L_1 = true) := fun d t =>
    not_both_of_sign d _ _ (LeftMotor_SetSpeed_exec_pins ub d t).1
      (LeftMotor_SetSpeed_exec_pins ub d t).2.1
  have hR : ∀ (d : Int) (t : State),
      ¬ ((RightMotor_SetSpeed_exec ub d t).R_0 = true ∧
          (RightMotor_SetSpeed_exec ub d t).R_1 = true) := fun d t =>
    not_both_of_sign d _ _ (RightMotor_SetSpeed_exec_pins ub d t).1
      (RightMotor_SetSpeed_exec_pins ub d t).2.1
  have hLs : ∀ (d : Int) (t : State), pinsExclusive t →
      pinsExclusive (LeftMotor_SetSpeed_exec ub d t) := by
    intro d t ht
    have a := LeftMotor_SetSpeed_exec_pins ub d t
    refine ⟨hL d t, ?_⟩
    rw [a.2.2.1, a.2.2.2]; exact ht.2
  have hRs : ∀ (d : Int) (t : State), pinsExclusive t →
      pinsExclusive (RightMotor_SetSpeed_exec ub d t) := by
    intro d t ht
    have a := RightMotor_SetSpeed_exec_pins ub d t
    refine ⟨?_, hR d t⟩
    rw [a.2.2.1, a.2.2.2]; exact ht.1
  refine ⟨fun d => hLs d s h, fun d => hRs d s h, ?_,
    fun d t => ⟨(LeftMotor_SetSpeed_exec_pins ub d t).1,
      (LeftMotor_SetSpeed_exec_pins ub d t).2.1, hL d t⟩,
    fun d t => ⟨(RightMotor_SetSpeed_exec_pins ub d t).1,
      (RightMotor_SetSpeed_exec_pins ub d t).2.1, hR d t⟩,
    fun d s' hs => LeftMotor_SetSpeed_exec_eq ub d s s' hs,
    fun d s' hs => RightMotor_SetSpeed_exec_eq ub d s s' hs,
    fun l r s' hs => set_pwm_exec_eq ub l r s s' hs,
    ?_, ?_, ?_, ?_, ?_, ?_, ?_, ?_, ?_, ?_⟩
  · intro l r
    rw [set_pwm_exec_eq_pair]
    exact hRs r _ (hLs l s h)
  · intro d s' hs
    have a := LeftMotor_SetSpeed_pins d s s' hs
    refine ⟨a.1, ?_⟩
    rw [a.2.1, a.2.2]; exact h.2
  · intro d s' hs
    have a := RightMotor_SetSpeed_pins d s s' hs
    refine ⟨?_, a.1⟩
    rw [a.2.1, a.2.2]; exact h.1
  · intro l r s' hs
    rw [set_pwm_eq] at hs
    cases hp : (LeftMotor_SetSpeed l s).bind (RightMotor_SetSpeed r) with
    | none => simp [hp] at hs
    | some m =>
      rw [hp, Option.map_some'] at hs
      have := pair_pinsExclusive l r s m hp
      simp only [Option.some.injEq] at hs
      subst hs
      exact this
  · intro d hlo hhi
    exact ⟨LeftMotor_SetSpeed_isSome d hlo hhi s, RightMotor_SetSpeed_isSome d hlo hhi s⟩
  · intro l r hl hr
    obtain ⟨m, hm⟩ := pair_isSome l r hl hr s
    exact ⟨_, by rw [set_pwm_eq, hm, Option.map_some']⟩
  · exact h
  · simp [pinsExclusive, motor_off]
  · intro f hf
    simp only [List.mem_cons, List.mem_singleton, List.not_mem_nil, or_false] at hf
    rcases hf with rfl | rfl | rfl | rfl | rfl | rfl | rfl
    · obtain ⟨m, hm⟩ := pair_isSome 50 50 (by norm_num) (by norm_num) s
      exact ⟨m, hm, pair_pinsExclusive _ _ s m hm⟩
    · obtain ⟨m, hm⟩ := pair_isSome (-50) (-50) (by norm_num) (by norm_num) s
      exact ⟨m, hm, pair_pinsExclusive _ _ s m hm⟩
    · obtain ⟨m, hm⟩ := pair_isSome 0 0 (by norm_num) (by norm_num) s
      exact ⟨m, hm, pair_pinsExclusive _ _ s m hm⟩
    · obtain ⟨m, hm⟩ := pair_isSome 10 50 (by norm_num) (by norm_num) s
      exact ⟨m, hm, pair_pinsExclusive _ _ s m hm⟩
    · obtain ⟨m, hm⟩ := pair_isSome 50 10 (by norm_num) (by norm_num) s
      exact ⟨m, hm, pair_pinsExclusive _ _ s m hm⟩
    · obtain ⟨m, hm⟩ := pair_isSome 50 (-50) (by norm_num) (by norm_num) s
      exact ⟨m, hm, pair_pinsExclusive _ _ s m hm⟩
    · obtain ⟨m, hm⟩ := pair_isSome (-50) 50 (by norm_num) (by norm_num) s
      exact ⟨m, hm, pair_pinsExclusive _ _ s m hm⟩
  · intro d t t' ht
    exact (LeftMotor_SetSpeed_pins d t t' ht).1
  · intro d t t' ht
    exact (RightMotor_SetSpeed_pins d t t' ht).1

/-- Witness for C17: the reset state, where all four pins are low, on a target
whose out-of-range conversion yields 0. -/
theorem C17_direction_pins_exclusive_witness :
    pinsExclusive resetState ∧
    ((∀ d : Int, pinsExclusive (LeftMotor_SetSpeed_exec (fun _ => 0) d resetState)) ∧
    (∀ d : Int, pinsExclusive (RightMotor_SetSpeed_exec (fun _ => 0) d resetState)) ∧
    (∀ l r : Int, pinsExclusive (set_pwm_exec (fun _ => 0) l r resetState)) ∧
    (∀ (d : Int) (t : State),
      (LeftMotor_SetSpeed_exec (fun _ => 0) d t).L_1 = decide (0 ≤ d) ∧
      (LeftMotor_SetSpeed_exec (fun _ => 0) d t).L_0 = decide (d < 0) ∧
      ¬ ((LeftMotor_SetSpeed_exec (fun _ => 0) d t).L_0 = true ∧
          (LeftMotor_SetSpeed_exec (fun _ => 0) d t).L_1 = true)) ∧
    (∀ (d : Int) (t : State),
      (RightMotor_SetSpeed_exec (fun _ => 0) d t).R_1 = decide (0 ≤ d) ∧
      (RightMotor_SetSpeed_exec (fun _ => 0) d t).R_0 = decide (d < 0) ∧
      ¬ ((RightMotor_SetSpeed_exec (fun _ => 0) d t).R_0 = true ∧
          (RightMotor_SetSpeed_exec (fun _ => 0) d t).R_1 = true)) ∧
    (∀ (d : Int) (s' : State), LeftMotor_SetSpeed d resetState = some s' →
      LeftMotor_SetSpeed_exec (fun _ => 0) d resetState = s') ∧
    (∀ (d : Int) (s' : State), RightMotor_SetSpeed d resetState = some s' →
      RightMotor_SetSpeed_exec (fun _ => 0) d resetState = s') ∧
    (∀ (l r : Int) (s' : State), set_pwm l r resetState = some s' →
      set_pwm_exec (fun _ => 0) l r resetState = s') ∧
    (∀ (d : Int) (s' : State), LeftMotor_SetSpeed d resetState = some s' → pinsExclusive s') ∧
    (∀ (d : Int) (s' : State), RightMotor_SetSpeed d resetState = some s' → pinsExclusive s') ∧
    (∀ (l r : Int) (s' : State), set_pwm l r resetState = some s' → pinsExclusive s') ∧
    (∀ d : Int, -100 ≤ d → d ≤ 100 →
      (∃ s', LeftMotor_SetSpeed d resetState = some s') ∧
      (∃ s', RightMotor_SetSpeed d resetState = some s')) ∧
    (∀ l r : Int, -100 ≤ l ∧ l ≤ 100 → -100 ≤ r ∧ r ≤ 100 →
      ∃ s', set_pwm l r resetState = some s') ∧
    pinsExclusive (motor_on resetState) ∧ pinsExclusive (motor_off resetState) ∧
    (∀ f ∈ [Move_Forward, Move_Backward, Car_Stop, Turn_Left, Turn_Right, Clockwise_Rotation,
        CounterClockwise_Rotation], ∃ s', f resetState = some s' ∧ pinsExclusive s') ∧
    (∀ (d : Int) (t t' : State), LeftMotor_SetSpeed d t = some t' →
      ¬ (t'.L_0 = true ∧ t'.L_1 = true)) ∧
    (∀ (d : Int) (t t' : State), RightMotor_SetSpeed d t = some t' →
      ¬ (t'.R_0 = true ∧ t'.R_1 = true))) :=
  ⟨by simp [pinsExclusive, resetState],
    C17_direction_pins_exclusive (fun _ => 0) resetState
      (by simp [pinsExclusive, resetState])⟩

/-- Claim C18: for every `Number` and every `Length ≤ 10`,
`Serial_SendNumber Number Length` returns and has sent exactly `Length` bytes,
the `i`-th being the ASCII digit `'0' + (Number / 10^(Length−1−i)) mod 10`; for
every exponent `k < Length` used, `Serial_Pow 10 k` is `10^k`, below `2^32` and
not zero. -/
theorem C18_send_number_digits (Number Length : Nat) (hL : Length ≤ 10) (s : State) :
    Serial_SendNumber Number Length s = some { s with tx := s.tx ++ specDigits Number Length } ∧
    (specDigits Number Length).length = Length ∧
    (∀ i, i < Length →
      (specDigits Number Length)[i]? = some (48 + (Number / 10 ^ (Length - 1 - i)) % 10)) ∧
    (∀ k, k < Length → Serial_Pow 10 k = 10 ^ k ∧ 10 ^ k < 2 ^ 32 ∧ Serial_Pow 10 k ≠ 0) := by
  refine ⟨?_, by simp [specDigits], ?_, ?_⟩
  · unfold Serial_SendNumber
    rw [Serial_SendNumber_loop_eq Number Length hL Length 0 (by omega) s]
    simp [specDigits, List.range_eq_range']
  · intro i hi
    simp [specDigits, hi]
  · intro k hk
    exact Serial_Pow_ten k (by omega)

/-- Witness for C18: the largest 32-bit number with ten digits. -/
theorem C18_send_number_digits_witness :
    (10 : Nat) ≤ 10 ∧
    (Serial_SendNumber 4294967295 10 resetState
      = some { resetState with tx := resetState.tx ++ specDigits 4294967295 10 } ∧
    (specDigits 4294967295 10).length = 10 ∧
    (∀ i, i < 10 →
      (specDigits 4294967295 10)[i]?
        = some (48 + (4294967295 / 10 ^ (10 - 1 - i)) % 10)) ∧
    (∀ k, k < 10 → Serial_Pow 10 k = 10 ^ k ∧ 10 ^ k < 2 ^ 32 ∧ Serial_Pow 10 k ≠ 0)) :=
  ⟨by decide, C18_send_number_digits 4294967295 10 (by decide) resetState⟩

end Firmware
